import Mathlib

/-!
# Verification of the Between-Verses pose pipeline (`src/script.js`)

A shallow embedding of the core of `script.js`:

* the anti-flicker Pose Lock finite state machine (`fsmUpdate`),
* the sticker animation update (`updateStickerAnim`, `selectImageFor`),
* the EMA temporal smoother (`emaPoint`),
* the geometric pose classifier (`analyzeState`),
* the frame-to-frame identity matcher (`matchPosesToPreviousFrame`,
  `calculatePoseSimilarity`).

JavaScript numbers (times in milliseconds, coordinates, confidences) are
modelled as exact rationals `ℚ`; `null` is modelled as `Option.none`.
JavaScript truthiness on a `string | null` value (`if (x)`) is modelled by
`jsTruthy`: `null` and the empty string are falsy, every other string truthy.
`Math.sqrt` appears in the classifier only inside comparisons of nonnegative
quantities; those comparisons are embedded in their algebraically equivalent
squared form (each such predicate carries a comment with the original
expression, and the equivalences over `ℝ` are proved as the lemmas
`sqrt_lt_sqrt_mul_sq_iff` and `sqrt_lt_of_sq_iff`).  The identity matcher's
similarity score keeps `Math.sqrt` itself, over `WithTop ℝ` (`⊤` models
JavaScript `Infinity`).

The file is organised as definitions (the embedding) first, then theorems.
-/

namespace BetweenVerses

/-! ## JavaScript truthiness -/

/-- JavaScript truthiness of a `string | null` value: `null` and `""` are
falsy, every other string is truthy. -/
def jsTruthy : Option String → Bool
  | none => false
  | some s => s ≠ ""

/-! ## Anti-flicker FSM (`script.js` lines 83-90 and 202-279) -/

/-- Constant `const POSE_DWELL_MS = 400` — must see same pose for this long to lock. -/
def POSE_DWELL_MS : ℚ := 400

/-- Constant `const STICKER_MIN_SHOW_MS = 1000` — keep sticker at least this long. -/
def STICKER_MIN_SHOW_MS : ℚ := 1000

/-- Constant `const STICKER_COOLDOWN_MS = 400` — after release, ignore re-triggers. -/
def STICKER_COOLDOWN_MS : ℚ := 400

/-- Constant `const GRACE_MS = 250` — tolerate brief drops before unlocking. -/
def GRACE_MS : ℚ := 250

/-- The four FSM phases of `poseFSM[personId].phase`. -/
inductive Phase
  | idle
  | candidate
  | locked
  | cooldown
deriving DecidableEq, Repr

/-- One slot's FSM state
(`{phase, candidatePose, candidateSince, lockedPose, lockedSince, cooldownUntil, lastSeen}`). -/
structure FSMState where
  phase : Phase
  candidatePose : Option String
  candidateSince : ℚ
  lockedPose : Option String
  lockedSince : ℚ
  cooldownUntil : ℚ
  lastSeen : ℚ
deriving DecidableEq, Repr

/-- The optional `detectedInfo` argument `{conf?, margin?}` of `fsmUpdate`;
the call site in `draw` passes `{}` (both fields absent). -/
structure DetectedInfo where
  conf : Option ℚ
  margin : Option ℚ
deriving DecidableEq, Repr

/-- The `detectedInfo = {}` passed by `draw` (line 541). -/
def defaultInfo : DetectedInfo := ⟨none, none⟩

/-- Gate `confOK = (detectedInfo.conf == null) ? true : (detectedInfo.conf >= 0)`. -/
def confOK (info : DetectedInfo) : Bool :=
  match info.conf with
  | none => true
  | some c => decide (0 ≤ c)

/-- Gate `marginOK = (detectedInfo.margin == null) ? true : (detectedInfo.margin >= 0)`. -/
def marginOK (info : DetectedInfo) : Bool :=
  match info.margin with
  | none => true
  | some m => decide (0 ≤ m)

/-- The state created on first touch of a slot:
`{phase:'idle', candidatePose:null, candidateSince:0, lockedPose:null,
lockedSince:0, cooldownUntil:0, lastSeen:t}` (lines 207-210). -/
def initFSMState (t : ℚ) : FSMState :=
  { phase := .idle, candidatePose := none, candidateSince := 0,
    lockedPose := none, lockedSince := 0, cooldownUntil := 0, lastSeen := t }

/-- The body of `fsmUpdate(personId, detectedPose, detectedInfo)`
(lines 203-278), acting on the slot's stored state `s0` at time `t`
(`const t = nowMs()`).  The returned value of the JavaScript function is
`(fsmUpdate …).lockedPose` of the updated state (line 278). -/
def fsmUpdate (detectedPose : Option String) (info : DetectedInfo) (t : ℚ)
    (s0 : FSMState) : FSMState :=
  let s := { s0 with lastSeen := t }
  match s.phase with
  | .idle =>
      -- if (detectedPose && confOK && marginOK && t >= s.cooldownUntil)
      if jsTruthy detectedPose && confOK info && marginOK info
          && decide (s.cooldownUntil ≤ t) then
        { s with phase := .candidate, candidatePose := detectedPose,
                 candidateSince := t }
      else s
  | .candidate =>
      -- if (!detectedPose) { if (t - s.candidateSince > GRACE_MS) … }
      if ¬ jsTruthy detectedPose then
        if GRACE_MS < t - s.candidateSince then
          { s with phase := .idle, candidatePose := none }
        else s
      -- if (detectedPose !== s.candidatePose) { restart dwell }
      else if detectedPose ≠ s.candidatePose then
        { s with candidatePose := detectedPose, candidateSince := t }
      -- if ((t - s.candidateSince) >= POSE_DWELL_MS && confOK && marginOK)
      else if decide (POSE_DWELL_MS ≤ t - s.candidateSince)
          && confOK info && marginOK info then
        { s with phase := .locked, lockedPose := s.candidatePose,
                 lockedSince := t }
      else s
  | .locked =>
      let minShowReached := STICKER_MIN_SHOW_MS ≤ t - s.lockedSince
      -- if (detectedPose === s.lockedPose || !minShowReached) break
      if detectedPose = s.lockedPose ∨ ¬ minShowReached then s
      else
        -- changed = (!detectedPose) || (detectedPose !== s.lockedPose)
        let changed := ¬ jsTruthy detectedPose ∨ detectedPose ≠ s.lockedPose
        if changed ∧ STICKER_MIN_SHOW_MS + GRACE_MS ≤ t - s.lockedSince then
          { s with phase := .cooldown, candidatePose := none,
                   candidateSince := 0,
                   cooldownUntil := t + STICKER_COOLDOWN_MS,
                   lockedPose := none }
        else s
  | .cooldown =>
      -- if (t >= s.cooldownUntil) s.phase = 'idle'
      if s.cooldownUntil ≤ t then { s with phase := .idle } else s

/-- The FSM states reachable from a freshly created slot by any sequence of
per-frame `fsmUpdate` calls. -/
inductive Reachable : FSMState → Prop
  | init (t : ℚ) : Reachable (initFSMState t)
  | step (label : Option String) (info : DetectedInfo) (t : ℚ) {s : FSMState} :
      Reachable s → Reachable (fsmUpdate label info t s)

/-! ## Sticker animation (`script.js` lines 165-180 and 282-333) -/

/-- Constant `const IN_MS = 440` — enter duration. -/
def IN_MS : ℚ := 440

/-- Constant `const OUT_MS = 220` — exit duration. -/
def OUT_MS : ℚ := 220

/-- Constant `const S_IN_START = 0.58` — pop-in starts a bit smaller. -/
def S_IN_START : ℚ := 0.58

/-- Constant `const S_IN_END = 1.00`. -/
def S_IN_END : ℚ := 1.00

/-- Constant `const S_OUT_END = 0.76` — shrink slightly on exit. -/
def S_OUT_END : ℚ := 0.76

/-- Helper `clamp01(x) { return x < 0 ? 0 : x > 1 ? 1 : x; }` -/
def clamp01 (x : ℚ) : ℚ := if x < 0 then 0 else if 1 < x then 1 else x

/-- Helper `lerp(a, b, t) { return a + (b - a) * t; }` -/
def lerp (a b t : ℚ) : ℚ := a + (b - a) * t

/-- Easing `easeOutQuad(u) { return 1 - (1 - u) * (1 - u); }` -/
def easeOutQuad (u : ℚ) : ℚ := 1 - (1 - u) * (1 - u)

/-- Easing `easeInQuad(u) { return u * u; }` -/
def easeInQuad (u : ℚ) : ℚ := u * u

/-- The sticker animation phases `'hidden' | 'in' | 'steady' | 'out'`. -/
inductive AnimPhase
  | hidden
  | inAnim
  | steady
  | outAnim
deriving DecidableEq, Repr

/-- State `stickerAnim[pid] = {phase, t0, dur, from, to, scale, currentPose,
currentImage}`.  Images are modelled by the names of the loaded image
variables.  (`from`/`to` are Lean keywords, hence `fromScale`/`toScale`.) -/
structure AnimState where
  phase : AnimPhase
  t0 : ℚ
  dur : ℚ
  fromScale : ℚ
  toScale : ℚ
  scale : ℚ
  currentPose : Option String
  currentImage : Option String
deriving DecidableEq, Repr

/-- The state created on first touch of a slot (line 287):
`{phase:'hidden', t0:0, dur:0, from:1, to:1, scale:1, currentPose:null,
currentImage:null}`. -/
def initAnimState : AnimState :=
  { phase := .hidden, t0 := 0, dur := 0, fromScale := 1, toScale := 1,
    scale := 1, currentPose := none, currentImage := none }

/-- Image selection `selectImageFor(state)` (lines 939-959), with the returned image objects
modelled by the names of the image variables; `"neutral"` and unknown states
return `null`. -/
def selectImageFor : String → Option String
  | "arms_out" => some "arms_outImage"
  | "arms_up" => some "arms_upImage"
  | "star" => some "starImage"
  | "zigzag" => some "zigzagImage"
  | "side_arms" => some "side_armsImage"
  | "rounded" => some "roundedImage"
  | _ => none

/-- The body of `updateStickerAnim(personId, lockedPose)` (lines 282-333)
acting on the slot's stored animation state `A0` at time `t`.  (In the
source, `u = clamp01((t - A.t0) / A.dur)` divides by `A.dur`, which is
nonzero whenever the phase is `'in'` or `'out'`; rational division by zero
yields `0` here, JavaScript would yield `NaN`/`Infinity` — that path is
unreachable from states produced by this function.) -/
def updateStickerAnim (lockedPose : Option String) (t : ℚ)
    (A0 : AnimState) : AnimState :=
  -- ENTER: if (lockedPose && lockedPose !== 'neutral')
  let A :=
    if jsTruthy lockedPose && decide (lockedPose ≠ some "neutral") then
      -- if (A.phase === 'hidden' || A.phase === 'out' || A.currentPose !== lockedPose)
      if A0.phase = .hidden ∨ A0.phase = .outAnim ∨ A0.currentPose ≠ lockedPose then
        { A0 with currentPose := lockedPose,
                  currentImage := selectImageFor (lockedPose.getD ""),
                  phase := .inAnim, t0 := t, dur := IN_MS,
                  fromScale := S_IN_START, toScale := S_IN_END }
      else A0
    else
      -- EXIT: if (A.phase === 'in' || A.phase === 'steady')
      if A0.phase = .inAnim ∨ A0.phase = .steady then
        { A0 with phase := .outAnim, t0 := t, dur := OUT_MS,
                  -- A.from = A.scale || 1.0
                  fromScale := if A0.scale = 0 then 1 else A0.scale,
                  toScale := S_OUT_END }
      else A0
  -- Advance animation
  if A.phase = .inAnim then
    let u := clamp01 ((t - A.t0) / A.dur)
    let A1 := { A with scale := lerp A.fromScale A.toScale (easeOutQuad u) }
    if 1 ≤ u then { A1 with phase := .steady, scale := 1 } else A1
  else if A.phase = .outAnim then
    let u := clamp01 ((t - A.t0) / A.dur)
    let A1 := { A with scale := lerp A.fromScale A.toScale (easeInQuad u) }
    if 1 ≤ u then
      { A1 with phase := .hidden, scale := 1, currentImage := none,
                currentPose := none }
    else A1
  else if A.phase = .steady then { A with scale := 1 }
  else A

/-! ## EMA temporal smoother (`script.js` lines 77-81 and 184-200) -/

/-- Constant `const SMOOTH_POS = 0.80` — position smoothing factor. -/
def SMOOTH_POS : ℚ := 0.80

/-- Constant `const SMOOTH_SCALE = 0.85` — scalar smoothing factor. -/
def SMOOTH_SCALE : ℚ := 0.85

/-- A stored EMA accumulator `{x, y}` for one joint name. -/
structure EmaPoint where
  x : ℚ
  y : ℚ
deriving DecidableEq, Repr

/-- One call of `emaPoint(pIdx, keyName, x, y)` (lines 185-191) acting on
the slot's stored accumulator for `keyName` (`none` models "no entry yet";
the source seeds `s = {x, y}` via `??=` and then applies
`s.x = α·s.x + (1-α)·x`, `s.y = α·s.y + (1-α)·y` to it).  The smoothing
factor is kept as the parameter `α`, instantiated with `SMOOTH_POS` at the
call sites (the spec exposes it as configuration). -/
def emaPointAlpha (α : ℚ) (prev : Option EmaPoint) (x y : ℚ) : EmaPoint :=
  let s := prev.getD ⟨x, y⟩
  ⟨α * s.x + (1 - α) * x, α * s.y + (1 - α) * y⟩

/-- Smoother `emaPoint` as called by `draw` (with `α = SMOOTH_POS`). -/
def emaPoint : Option EmaPoint → ℚ → ℚ → EmaPoint := emaPointAlpha SMOOTH_POS

/-- One call of `emaScalar(pIdx, name, value)` (lines 194-200):
`v = SMOOTH_SCALE·prev + (1-SMOOTH_SCALE)·value`, seeding `prev = value` on
first observation. -/
def emaScalar (prev : Option ℚ) (value : ℚ) : ℚ :=
  SMOOTH_SCALE * prev.getD value + (1 - SMOOTH_SCALE) * value

/-- Feeding the same raw `(x, y)` to the EMA `n` consecutive times starting
from an existing accumulator `s0`. -/
def emaIterate (α : ℚ) (s0 : EmaPoint) (x y : ℚ) : ℕ → EmaPoint
  | 0 => s0
  | n + 1 => emaPointAlpha α (some (emaIterate α s0 x y n)) x y

/-! ## Pose classifier (`script.js` lines 716-871)

`analyzeState(pose, personNumber)` is a pure function of the skeleton up to
its `displayState` debug-text side effect, which is ignored here. -/

/-- One entry of `pose.keypoints`: `{name, x, y, confidence}` (positions in
source pixel units, confidence in `[0,1]`). -/
structure Keypoint where
  name : String
  x : ℚ
  y : ℚ
  confidence : ℚ
deriving DecidableEq, Repr, Inhabited

/-- One detected skeleton: `pose.keypoints` as delivered by the detector. -/
structure Pose where
  keypoints : List Keypoint
deriving DecidableEq, Repr

/-- Lookup `pose.keypoints.find((k) => k.name === n)` (lines 719-731). -/
def findKp (pose : Pose) (n : String) : Option Keypoint :=
  pose.keypoints.find? (fun k => k.name == n)

/-- The squared Euclidean distance
`(x1-x2)² + (y1-y2)²`; the source computes
`Math.sqrt(Math.pow(x1-x2, 2) + Math.pow(y1-y2, 2))`. -/
def distSq (x1 y1 x2 y2 : ℚ) : ℚ := (x1 - x2) ^ 2 + (y1 - y2) ^ 2

/-- Helper `leftArmExtended = leftArmLength > leftForearmLength * 1.6` (line 755),
in squared form (`leftArmLength = √(distSq(wrist, shoulder))`,
`leftForearmLength = √(distSq(wrist, elbow))`, lines 749-752). -/
def leftArmExtended (pose : Pose) : Bool :=
  let lw := (findKp pose "left_wrist").get!
  let le := (findKp pose "left_elbow").get!
  let ls := (findKp pose "left_shoulder").get!
  decide (distSq lw.x lw.y le.x le.y * (1.6 : ℚ) ^ 2
    < distSq lw.x lw.y ls.x ls.y)

/-- Helper `rightArmExtended = rightArmLength > rightForearmLength * 1.6`
(line 756), in squared form. -/
def rightArmExtended (pose : Pose) : Bool :=
  let rw := (findKp pose "right_wrist").get!
  let re := (findKp pose "right_elbow").get!
  let rs := (findKp pose "right_shoulder").get!
  decide (distSq rw.x rw.y re.x re.y * (1.6 : ℚ) ^ 2
    < distSq rw.x rw.y rs.x rs.y)

/-- Metric `shoulderWidth = Math.abs(leftShoulder.x - rightShoulder.x)`
(line 745). -/
def shoulderWidth (pose : Pose) : ℚ :=
  |(findKp pose "left_shoulder").get!.x - (findKp pose "right_shoulder").get!.x|

/-- Metric `shoulderMidY = (leftShoulder.y + rightShoulder.y) / 2` (line 746). -/
def shoulderMidY (pose : Pose) : ℚ :=
  ((findKp pose "left_shoulder").get!.y + (findKp pose "right_shoulder").get!.y) / 2

/-- Helper `leftArmSpread = leftWrist.x < leftShoulder.x - shoulderWidth * 0.3`
(line 759). -/
def leftArmSpread (pose : Pose) : Bool :=
  decide ((findKp pose "left_wrist").get!.x
    < (findKp pose "left_shoulder").get!.x - shoulderWidth pose * 0.3)

/-- Helper `rightArmSpread = rightWrist.x > rightShoulder.x + shoulderWidth * 0.3`
(line 760). -/
def rightArmSpread (pose : Pose) : Bool :=
  decide ((findKp pose "right_shoulder").get!.x + shoulderWidth pose * 0.3
    < (findKp pose "right_wrist").get!.x)

/-- Helper `wristsSymmetric = Math.abs(leftWrist.y - rightWrist.y) < 60`
(line 763). -/
def wristsSymmetric (pose : Pose) : Bool :=
  decide (|(findKp pose "left_wrist").get!.y
    - (findKp pose "right_wrist").get!.y| < 60)

/-- Rule 1, STAR (lines 767-779): requires both hips and both ankles
present (`if (leftHip && rightHip && leftAnkle && rightAnkle)`), legs
spread (`ankleSpread > hipWidth * 1.3`), both wrists above `shoulderMidY`,
both arms extended and spread, and wrists symmetric. -/
def starPose (pose : Pose) : Bool :=
  (findKp pose "left_hip").isSome && (findKp pose "right_hip").isSome &&
  (findKp pose "left_ankle").isSome && (findKp pose "right_ankle").isSome &&
  (let lh := (findKp pose "left_hip").get!
   let rh := (findKp pose "right_hip").get!
   let la := (findKp pose "left_ankle").get!
   let ra := (findKp pose "right_ankle").get!
   let lw := (findKp pose "left_wrist").get!
   let rw := (findKp pose "right_wrist").get!
   -- hipWidth = |leftHip.x - rightHip.x|; ankleSpread = |leftAnkle.x - rightAnkle.x|
   -- legsSpread = ankleSpread > hipWidth * 1.3
   -- armsRaised = leftWrist.y < shoulderMidY && rightWrist.y < shoulderMidY
   leftArmExtended pose && rightArmExtended pose &&
   leftArmSpread pose && rightArmSpread pose &&
   decide (lw.y < shoulderMidY pose) && decide (rw.y < shoulderMidY pose) &&
   decide (|lh.x - rh.x| * 1.3 < |la.x - ra.x|) &&
   wristsSymmetric pose)

/-- Rule 2, ARMS UP (lines 781-786):
`bothArmsUp = leftWrist.y < nose.y - 30 && rightWrist.y < nose.y - 30`,
plus both arms extended and wrists symmetric. -/
def armsUpPose (pose : Pose) : Bool :=
  let lw := (findKp pose "left_wrist").get!
  let rw := (findKp pose "right_wrist").get!
  let nose := (findKp pose "nose").get!
  decide (lw.y < nose.y - 30) && decide (rw.y < nose.y - 30) &&
  leftArmExtended pose && rightArmExtended pose && wristsSymmetric pose

/-- Rule 3, SIDE ARMS (lines 788-801): wrists above elbows by 20 and above
shoulders, elbows out by `shoulderWidth * 0.3`, wrists symmetric. -/
def sideArmsPose (pose : Pose) : Bool :=
  let lw := (findKp pose "left_wrist").get!
  let rw := (findKp pose "right_wrist").get!
  let le := (findKp pose "left_elbow").get!
  let re := (findKp pose "right_elbow").get!
  let ls := (findKp pose "left_shoulder").get!
  let rs := (findKp pose "right_shoulder").get!
  decide (lw.y < le.y - 20) && decide (rw.y < re.y - 20) &&
  decide (lw.y < ls.y) && decide (rw.y < rs.y) &&
  decide (shoulderWidth pose * 0.3 < |le.x - ls.x|) &&
  decide (shoulderWidth pose * 0.3 < |re.x - rs.x|) &&
  wristsSymmetric pose

/-- Rule 4, ZIGZAG (lines 803-812): wrist height difference above
`shoulderWidth * 0.8`, one arm up and one arm down relative to
`shoulderMidY ± 40`, both arms extended. -/
def zigzagPose (pose : Pose) : Bool :=
  let lw := (findKp pose "left_wrist").get!
  let rw := (findKp pose "right_wrist").get!
  decide (shoulderWidth pose * 0.8 < |lw.y - rw.y|) &&
  (decide (lw.y < shoulderMidY pose - 40) || decide (rw.y < shoulderMidY pose - 40)) &&
  (decide (shoulderMidY pose + 40 < lw.y) || decide (shoulderMidY pose + 40 < rw.y)) &&
  leftArmExtended pose && rightArmExtended pose

/-- Rule 5, ARMS OUT (lines 814-822): arms extended, spread and horizontal
(`|wrist.y - shoulder.y| < 60`), wrists symmetric. -/
def armsOutPose (pose : Pose) : Bool :=
  let lw := (findKp pose "left_wrist").get!
  let rw := (findKp pose "right_wrist").get!
  let ls := (findKp pose "left_shoulder").get!
  let rs := (findKp pose "right_shoulder").get!
  leftArmExtended pose && rightArmExtended pose &&
  leftArmSpread pose && rightArmSpread pose &&
  decide (|lw.y - ls.y| < 60) && decide (|rw.y - rs.y| < 60) &&
  wristsSymmetric pose

/-- Rule 6, ROUNDED (lines 824-866): requires both hips present
(`if (leftHip && rightHip)`); wrists vertically between
`shoulderMidY - torsoHeight*0.2` and `hipMidY + torsoHeight*0.6`, wrists
near hips (`wristToHipDist < shoulderWidth * 1.0`, in squared form),
elbows outward of wrists by `shoulderWidth * 0.1`, and forearms short
(`forearmLength < shoulderWidth * 1.4`, in squared form). -/
def roundedPose (pose : Pose) : Bool :=
  (findKp pose "left_hip").isSome && (findKp pose "right_hip").isSome &&
  (let lh := (findKp pose "left_hip").get!
   let rh := (findKp pose "right_hip").get!
   let lw := (findKp pose "left_wrist").get!
   let rw := (findKp pose "right_wrist").get!
   let le := (findKp pose "left_elbow").get!
   let re := (findKp pose "right_elbow").get!
   -- torsoHeight = |shoulderMidY - (leftHip.y + rightHip.y)/2|; hipMidY = (leftHip.y + rightHip.y)/2
   let torsoHeight := |shoulderMidY pose - (lh.y + rh.y) / 2|
   let hipMidY := (lh.y + rh.y) / 2
   decide (shoulderMidY pose - torsoHeight * 0.2 < lw.y) &&
   decide (lw.y < hipMidY + torsoHeight * 0.6) &&
   decide (shoulderMidY pose - torsoHeight * 0.2 < rw.y) &&
   decide (rw.y < hipMidY + torsoHeight * 0.6) &&
   decide (distSq lw.x lw.y lh.x lh.y < (shoulderWidth pose * 1.0) ^ 2) &&
   decide (distSq rw.x rw.y rh.x rh.y < (shoulderWidth pose * 1.0) ^ 2) &&
   decide (le.x < lw.x - shoulderWidth pose * 0.1) &&
   decide (rw.x + shoulderWidth pose * 0.1 < re.x) &&
   decide (distSq lw.x lw.y le.x le.y < (shoulderWidth pose * 1.4) ^ 2) &&
   decide (distSq rw.x rw.y re.x re.y < (shoulderWidth pose * 1.4) ^ 2))

/-- The presence gate (lines 733-736): `!leftWrist || !rightWrist ||
!leftElbow || !rightElbow || !leftShoulder || !rightShoulder || !nose`.
(The source also extracts knees, which it never uses.) -/
def criticalMissing (pose : Pose) : Bool :=
  (findKp pose "left_wrist").isNone || (findKp pose "right_wrist").isNone ||
  (findKp pose "left_elbow").isNone || (findKp pose "right_elbow").isNone ||
  (findKp pose "left_shoulder").isNone || (findKp pose "right_shoulder").isNone ||
  (findKp pose "nose").isNone

/-- The confidence gate (lines 738-742): `leftWrist.confidence < 0.3 ||
rightWrist.confidence < 0.3 || leftShoulder.confidence < 0.3 ||
rightShoulder.confidence < 0.3` — wrists and shoulders only. -/
def lowConfidence (pose : Pose) : Bool :=
  decide ((findKp pose "left_wrist").get!.confidence < 0.3) ||
  decide ((findKp pose "right_wrist").get!.confidence < 0.3) ||
  decide ((findKp pose "left_shoulder").get!.confidence < 0.3) ||
  decide ((findKp pose "right_shoulder").get!.confidence < 0.3)

/-- Classifier `analyzeState(pose, personNumber)` (lines 717-871): the two gates, then
the six rules tried in source order with early returns, default
`"neutral"`. -/
def analyzeState (pose : Pose) : String :=
  if criticalMissing pose then "neutral"
  else if lowConfidence pose then "neutral"
  else if starPose pose then "star"
  else if armsUpPose pose then "arms_up"
  else if sideArmsPose pose then "side_arms"
  else if zigzagPose pose then "zigzag"
  else if armsOutPose pose then "arms_out"
  else if roundedPose pose then "rounded"
  else "neutral"

/-- The classifier's ordered rule list, in the priority order of the
source. -/
def poseRules : List ((Pose → Bool) × String) :=
  [(starPose, "star"), (armsUpPose, "arms_up"), (sideArmsPose, "side_arms"),
   (zigzagPose, "zigzag"), (armsOutPose, "arms_out"), (roundedPose, "rounded")]

/-- First-match evaluation of an ordered rule list — the spec's "first
satisfied rule wins". -/
def firstMatchLabel : List ((Pose → Bool) × String) → Pose → Option String
  | [], _ => none
  | r :: rest, pose =>
      if r.1 pose then some r.2 else firstMatchLabel rest pose

/-- Modelled from the spec's words (§4.1): gate on required joints, then
evaluate the ordered rule list, first satisfied rule wins, default
`neutral`. -/
def classifySpec (pose : Pose) : String :=
  if criticalMissing pose || lowConfidence pose then "neutral"
  else (firstMatchLabel poseRules pose).getD "neutral"

/-- A concrete skeleton holding an arms-up position whose nose keypoint has
confidence `0.1 < 0.3` while wrists and shoulders have confidence `0.9`
(hips/ankles absent). -/
def c6NoseLowPose : Pose :=
  ⟨[⟨"nose", 100, 100, 0.1⟩,
    ⟨"left_shoulder", 60, 300, 0.9⟩, ⟨"right_shoulder", 140, 300, 0.9⟩,
    ⟨"left_elbow", 60, 200, 0.9⟩, ⟨"right_elbow", 140, 200, 0.9⟩,
    ⟨"left_wrist", 60, 50, 0.9⟩, ⟨"right_wrist", 140, 50, 0.9⟩]⟩

/-- A concrete skeleton whose left wrist has confidence `0.1 < 0.3`. -/
def c6LowWristPose : Pose :=
  ⟨[⟨"nose", 100, 100, 0.9⟩,
    ⟨"left_shoulder", 60, 300, 0.9⟩, ⟨"right_shoulder", 140, 300, 0.9⟩,
    ⟨"left_elbow", 60, 200, 0.9⟩, ⟨"right_elbow", 140, 200, 0.9⟩,
    ⟨"left_wrist", 60, 50, 0.1⟩, ⟨"right_wrist", 140, 50, 0.9⟩]⟩

/-- A concrete skeleton satisfying both the ARMS UP rule (priority index 1)
and the ARMS OUT rule (priority index 4) simultaneously: wrists above the
nose but within 60px of shoulder height, arms extended and spread. -/
def c7TwoRulePose : Pose :=
  ⟨[⟨"nose", 150, 300, 0.9⟩,
    ⟨"left_shoulder", 100, 280, 0.9⟩, ⟨"right_shoulder", 200, 280, 0.9⟩,
    ⟨"left_elbow", 60, 265, 0.9⟩, ⟨"right_elbow", 240, 265, 0.9⟩,
    ⟨"left_wrist", 20, 250, 0.9⟩, ⟨"right_wrist", 280, 250, 0.9⟩]⟩

/-! ## Identity matcher (`script.js` lines 1025-1123)

The defs below are `noncomputable` solely because of `ℝ`; their structure
mirrors the source loops. -/

/-- Anchors `keyPointNames` (line 1034): the anchor joints compared by
`calculatePoseSimilarity`. -/
def keyPointNames : List String :=
  ["nose", "left_shoulder", "right_shoulder", "left_hip", "right_hip"]

/-- The squared distances accumulated by the loop of
`calculatePoseSimilarity` (lines 1036-1047): one entry per anchor name
found in both poses with confidence `> 0.3` in both. -/
def comparedDistSqs (pose1 pose2 : Pose) : List ℚ :=
  keyPointNames.filterMap (fun n =>
    match findKp pose1 n, findKp pose2 n with
    | some kp1, some kp2 =>
        if 0.3 < kp1.confidence ∧ 0.3 < kp2.confidence
        then some (distSq kp1.x kp1.y kp2.x kp2.y) else none
    | _, _ => none)

/-- Similarity `calculatePoseSimilarity(pose1, pose2)` (lines 1029-1051): the average
of `Math.sqrt(dx·dx + dy·dy)` over the qualifying anchors
(`totalDistance / numComparisons`), or `Infinity` when none qualifies. -/
noncomputable def calculatePoseSimilarity (pose1 pose2 : Pose) : WithTop ℝ :=
  let ds := comparedDistSqs pose1 pose2
  if 0 < ds.length
  then (((ds.map (fun d => Real.sqrt (d : ℝ))).sum / ds.length : ℝ) : WithTop ℝ)
  else ⊤

/-- The cost matrix `costMatrix[currIdx][prevIdx] =
calculatePoseSimilarity(currentPoses[currIdx], previousPoses[prevIdx])`
(lines 1066-1073). -/
noncomputable def costOf (currentPoses previousPoses : List Pose)
    (currIdx prevIdx : ℕ) : WithTop ℝ :=
  calculatePoseSimilarity (currentPoses.getD currIdx ⟨[]⟩)
    (previousPoses.getD prevIdx ⟨[]⟩)

/-- The inner loop of the greedy pass (lines 1081-1092): scan the `matched`
array (one entry per current pose, `none` = not yet matched, paired here
with its index `currIdx`), keeping the lowest-cost unmatched current index
for the given `prevIdx`.  `bestCurrentIdx = -1` is modelled by `none`;
`bestScore` starts at `Infinity` (`⊤`). -/
noncomputable def bestCandidateAux (cost : ℕ → ℕ → WithTop ℝ) (prevIdx : ℕ) :
    List (Option ℕ) → ℕ → Option ℕ × WithTop ℝ → Option ℕ × WithTop ℝ
  | [], _, best => best
  | mo :: ms, currIdx, best =>
      bestCandidateAux cost prevIdx ms (currIdx + 1)
        (if mo.isSome then best
         else if cost currIdx prevIdx < best.2
         then (some currIdx, cost currIdx prevIdx) else best)

/-- One iteration of the outer greedy loop (lines 1080-1099): record the
best match for `prevIdx` only if its score is below the distance threshold
(`bestCurrentIdx !== -1 && bestScore < 200`). -/
noncomputable def greedyStep (cost : ℕ → ℕ → WithTop ℝ)
    (matched : List (Option ℕ)) (prevIdx : ℕ) : List (Option ℕ) :=
  let best := bestCandidateAux cost prevIdx matched 0 (none, ⊤)
  match best.1 with
  | some bestCurrentIdx =>
      if best.2 < (((200 : ℝ)) : WithTop ℝ)
      then matched.set bestCurrentIdx (some prevIdx)
      else matched
  | none => matched

/-- The greedy pass (lines 1076-1099): `matched` starts as
`new Array(currentPoses.length)` (all unmatched); previous slots are
processed in index order.  (The source also fills a `usedPrevious` set that
is never read; it is omitted.) -/
noncomputable def greedyMatch (cost : ℕ → ℕ → WithTop ℝ) (m k : ℕ) :
    List (Option ℕ) :=
  (List.range k).foldl (greedyStep cost) (List.replicate m none)

/-- The scan `while (reordered[nextSlot] !== undefined) nextSlot++`
(line 1116): first index `≥ i` holding `none` (or the length if there is
none — unreachable in the calls below, where JavaScript would instead
extend the array). -/
def firstEmptyFrom (reordered : List (Option Pose)) (i : ℕ) : ℕ :=
  if h : i < reordered.length then
    if (reordered.get ⟨i, h⟩).isSome then firstEmptyFrom reordered (i + 1)
    else i
  else i
termination_by reordered.length - i

/-- Lines 1104-1109: place each matched current pose at its matched
previous index (`reordered[matched[currIdx]] = currentPoses[currIdx]`). -/
def placeMatched : List Pose → List (Option ℕ) → List (Option Pose) →
    List (Option Pose)
  | [], _, reordered => reordered
  | _, [], reordered => reordered
  | p :: cur, mo :: matched, reordered =>
      placeMatched cur matched
        (match mo with
         | some j => reordered.set j (some p)
         | none => reordered)

/-- Lines 1111-1119: place each unmatched current pose into the next empty
slot, scanning upward from the previous fill position. -/
def fillUnmatched : List Pose → List (Option ℕ) → List (Option Pose) → ℕ →
    List (Option Pose)
  | [], _, reordered, _ => reordered
  | _, [], reordered, _ => reordered
  | p :: cur, mo :: matched, reordered, nextSlot =>
      match mo with
      | some _ => fillUnmatched cur matched reordered nextSlot
      | none =>
          let j := firstEmptyFrom reordered nextSlot
          fillUnmatched cur matched (reordered.set j (some p)) j

/-- The poses of `cur` whose `matched` entry is `some` (those placed by
`placeMatched`), in order. -/
def pairedSome : List Pose → List (Option ℕ) → List Pose
  | [], _ => []
  | _ :: _, [] => []
  | p :: cur, mo :: matched =>
      if mo.isSome then p :: pairedSome cur matched
      else pairedSome cur matched

/-- The poses of `cur` whose `matched` entry is `none` (the unmatched
current skeletons, in the order they were found). -/
def pairedNone : List Pose → List (Option ℕ) → List Pose
  | [], _ => []
  | _ :: _, [] => []
  | p :: cur, mo :: matched =>
      if mo.isSome then pairedNone cur matched
      else p :: pairedNone cur matched

/-- Matcher `matchPosesToPreviousFrame(currentPoses, previousPoses)`
(lines 1057-1123): early return when either frame is empty; cost matrix;
greedy match; `reordered = new Array(Math.max(m, k))`; place matched poses
at their previous indices; fill unmatched poses into the remaining empty
slots; filter out the `undefined` slots. -/
noncomputable def matchPosesToPreviousFrame
    (currentPoses previousPoses : List Pose) : List Pose :=
  if previousPoses.length = 0 then currentPoses
  else if currentPoses.length = 0 then currentPoses
  else
    let matched := greedyMatch (costOf currentPoses previousPoses)
      currentPoses.length previousPoses.length
    let size := max currentPoses.length previousPoses.length
    let reordered := placeMatched currentPoses matched (List.replicate size none)
    let filled := fillUnmatched currentPoses matched reordered 0
    filled.filterMap id

/-- A skeleton with no keypoints (every `findKp` lookup fails, so every
similarity against it is `Infinity`). -/
def emptyPose : Pose := ⟨[]⟩

/-- A one-keypoint skeleton used to build a zero-distance match. -/
def posA : Pose := ⟨[⟨"nose", 50, 50, 0.9⟩]⟩

/-! ## FSM invariants -/

/-- Invariant of the FSM: either the slot is in the `locked` phase, or the
stored `lockedPose` is `null`.  `lockedPose` starts `null`, is only set on
the `candidate → locked` transition, and is cleared on the
`locked → cooldown` transition. -/
theorem locked_or_lockedPose_none {s : FSMState} (hs : Reachable s) :
    s.phase = .locked ∨ s.lockedPose = none := by
  induction hs with
  | init t => exact Or.inr rfl
  | step label info t hr ih =>
      rename_i s'
      unfold fsmUpdate
      cases hp : s'.phase with
      | idle =>
          have hnone : s'.lockedPose = none := by simp_all
          simp only [hp]
          split <;> simp_all
      | candidate =>
          have hnone : s'.lockedPose = none := by simp_all
          simp only [hp]
          split
          · split <;> simp_all
          · split
            · simp_all
            · split <;> simp_all
      | locked =>
          simp only [hp]
          split
          · simp_all
          · split <;> simp_all
      | cooldown =>
          have hnone : s'.lockedPose = none := by simp_all
          simp only [hp]
          split <;> simp_all

/-! ## Claims C1 and C2 -/

/-- C1 counterexample: the claim says `lockedPose` is never `'neutral'`
because a detected `'neutral'` does not start a candidate in `idle`.  In the
source, the `idle` branch tests only truthiness of `detectedPose`
(line 220), and `'neutral'` is a truthy string: feeding the classifier
output `'neutral'` to a fresh slot at `t = 0` and again at `t = 400`
(the dwell time) reaches a state whose stored `lockedPose` is `'neutral'`. -/
theorem C1_counterexample :
    Reachable (fsmUpdate (some "neutral") defaultInfo 400
      (fsmUpdate (some "neutral") defaultInfo 0 (initFSMState 0))) ∧
    (fsmUpdate (some "neutral") defaultInfo 400
      (fsmUpdate (some "neutral") defaultInfo 0 (initFSMState 0))).lockedPose
      = some "neutral" :=
  ⟨.step _ _ _ (.step _ _ _ (.init 0)), by
    simp [fsmUpdate, initFSMState, defaultInfo, jsTruthy, confOK,
      marginOK, POSE_DWELL_MS, GRACE_MS]⟩

/-- C1 (amended): in the `idle` phase any truthy detected label — including
the string `'neutral'` — starts a candidate once past the cooldown, so the
stored `lockedPose` can become `'neutral'`; however the sticker-animation
consumer treats a locked `'neutral'` exactly like the absence of a locked
pose (`updateStickerAnim` takes the same exit path for both), so a locked
`'neutral'` is never shown. -/
theorem C1_amended :
    (∀ (s : FSMState) (label : Option String) (info : DetectedInfo) (t : ℚ),
      s.phase = .idle → jsTruthy label → confOK info → marginOK info →
      s.cooldownUntil ≤ t →
      (fsmUpdate label info t s).phase = .candidate ∧
      (fsmUpdate label info t s).candidatePose = label) ∧
    (∀ (A : AnimState) (t : ℚ),
      updateStickerAnim (some "neutral") t A = updateStickerAnim none t A) := by
  constructor
  · intro s label info t hp htr hc hm hcd
    unfold fsmUpdate
    simp [hp, htr, hc, hm, hcd]
  · intro A t
    unfold updateStickerAnim
    simp [jsTruthy]

/-- Witness for `C1_amended` at a fresh slot, detected label `'neutral'`,
`t = 5`, and at the initial animation state at `t = 0`. -/
theorem C1_amended_witness :
    ((fsmUpdate (some "neutral") defaultInfo 5 (initFSMState 0)).phase
        = .candidate ∧
      (fsmUpdate (some "neutral") defaultInfo 5 (initFSMState 0)).candidatePose
        = some "neutral") ∧
    updateStickerAnim (some "neutral") 0 initAnimState
      = updateStickerAnim none 0 initAnimState :=
  ⟨C1_amended.1 (initFSMState 0) (some "neutral") defaultInfo 5 rfl (by decide)
      (by decide) (by decide) (by norm_num [initFSMState]),
    C1_amended.2 initAnimState 0⟩

/-- C2 counterexample: the claim says an absent (`null`) detection produces
exactly the same successor state as the detection `'neutral'`.  At a fresh
slot (`idle`, past cooldown) at `t = 100`, `null` leaves the FSM in `idle`
while `'neutral'` starts a candidate: the successor states differ. -/
theorem C2_counterexample :
    fsmUpdate none defaultInfo 100 (initFSMState 0)
      ≠ fsmUpdate (some "neutral") defaultInfo 100 (initFSMState 0) := by
  simp [fsmUpdate, initFSMState, defaultInfo, jsTruthy, confOK, marginOK]

/-- C2 (amended): `fsmUpdate` is total (every phase/label/time combination
produces a successor state, embodied by this total function), but an absent
(`null`) detection is treated as "no detection", which does not coincide
with the truthy label `'neutral'`: in `idle` a `null` detection leaves the
state unchanged (other than `lastSeen`), and in `candidate` a `null`
detection falls back to `idle` exactly when the grace window has been
exceeded, never locking. -/
theorem C2_amended :
    ∀ (s : FSMState) (info : DetectedInfo) (t : ℚ),
      (s.phase = .idle →
        fsmUpdate none info t s = { s with lastSeen := t }) ∧
      (s.phase = .candidate →
        fsmUpdate none info t s =
          if GRACE_MS < t - s.candidateSince then
            { s with phase := .idle, candidatePose := none, lastSeen := t }
          else { s with lastSeen := t }) := by
  intro s info t
  constructor
  · intro hp
    unfold fsmUpdate
    simp [hp, jsTruthy]
  · intro hp
    unfold fsmUpdate
    simp [hp, jsTruthy]

/-- Witness for `C2_amended`: a fresh slot in `idle` at `t = 100`, and a
`candidate` slot whose grace window has been exceeded. -/
theorem C2_amended_witness :
    (fsmUpdate none defaultInfo 100 (initFSMState 0)
      = { initFSMState 0 with lastSeen := 100 }) ∧
    (fsmUpdate none defaultInfo 300
        (fsmUpdate (some "star") defaultInfo 0 (initFSMState 0))
      = if GRACE_MS < (300 : ℚ) -
            (fsmUpdate (some "star") defaultInfo 0 (initFSMState 0)).candidateSince
        then { fsmUpdate (some "star") defaultInfo 0 (initFSMState 0) with
                phase := .idle, candidatePose := none, lastSeen := 300 }
        else { fsmUpdate (some "star") defaultInfo 0 (initFSMState 0) with
                lastSeen := 300 }) :=
  ⟨(C2_amended (initFSMState 0) defaultInfo 100).1 rfl,
    (C2_amended _ defaultInfo 300).2 (by
      simp [fsmUpdate, initFSMState, defaultInfo, jsTruthy, confOK, marginOK])⟩

/-! ## Claims C3, C4, C5 -/

/-- C3: while in `locked`, any update at a time `t` with
`t - lockedSince < STICKER_MIN_SHOW_MS + GRACE_MS` keeps the phase `locked`
and leaves `lockedPose` and `lockedSince` unchanged, whatever the detected
label is (same, different, `'neutral'` or absent); and an update can leave
the `locked` phase only if `STICKER_MIN_SHOW_MS + GRACE_MS` has elapsed and
the detected label differs from the locked one. -/
theorem C3_locked_min_show :
    ∀ (s : FSMState) (label : Option String) (info : DetectedInfo) (t : ℚ),
      s.phase = .locked →
      (t - s.lockedSince < STICKER_MIN_SHOW_MS + GRACE_MS →
        (fsmUpdate label info t s).phase = .locked ∧
        (fsmUpdate label info t s).lockedPose = s.lockedPose ∧
        (fsmUpdate label info t s).lockedSince = s.lockedSince) ∧
      ((fsmUpdate label info t s).phase ≠ .locked →
        STICKER_MIN_SHOW_MS + GRACE_MS ≤ t - s.lockedSince ∧
        label ≠ s.lockedPose) := by
  intro s label info t hp
  constructor
  · intro hlt
    unfold fsmUpdate
    simp only [hp]
    split
    · exact ⟨rfl, rfl, rfl⟩
    · split
      · rename_i hcond
        exact absurd hcond.2 (by linarith)
      · exact ⟨rfl, rfl, rfl⟩
  · unfold fsmUpdate
    simp only [hp]
    split
    · intro hne
      exact absurd rfl hne
    · rename_i hnot1
      push_neg at hnot1
      split
      · rename_i hcond
        intro _
        exact ⟨hcond.2, hnot1.1⟩
      · intro hne
        exact absurd rfl hne

/-- Witness for `C3_locked_min_show`: a slot locked on `'star'` at time 0,
updated with an absent detection at `t = 500 < 1250`. -/
theorem C3_witness :
    (fsmUpdate none defaultInfo 500
        ⟨.locked, none, 0, some "star", 0, 0, 0⟩).phase = .locked ∧
    (fsmUpdate none defaultInfo 500
        ⟨.locked, none, 0, some "star", 0, 0, 0⟩).lockedPose
      = (⟨.locked, none, 0, some "star", 0, 0, 0⟩ : FSMState).lockedPose ∧
    (fsmUpdate none defaultInfo 500
        ⟨.locked, none, 0, some "star", 0, 0, 0⟩).lockedSince
      = (⟨.locked, none, 0, some "star", 0, 0, 0⟩ : FSMState).lockedSince :=
  (C3_locked_min_show ⟨.locked, none, 0, some "star", 0, 0, 0⟩ none
      defaultInfo 500 rfl).1
    (by norm_num [STICKER_MIN_SHOW_MS, GRACE_MS])

/-- C4: in the `candidate` phase, a truthy label equal to the current
candidate with `t - candidateSince < POSE_DWELL_MS` changes nothing (no
lock); a truthy label different from the candidate restarts the dwell timer
(`candidateSince = t`) without locking; a truthy label equal to the
candidate with the dwell time reached (and the quality gates passing) locks,
setting `lockedPose` to the candidate and `lockedSince` to the update time;
and from `locked` an update can only stay `locked` or move to `cooldown`, so
a sustained candidate locks exactly once. -/
theorem C4_dwell :
    ∀ (s : FSMState) (label : Option String) (info : DetectedInfo) (t : ℚ),
      (s.phase = .candidate → jsTruthy label → label = s.candidatePose →
        t - s.candidateSince < POSE_DWELL_MS →
        fsmUpdate label info t s = { s with lastSeen := t }) ∧
      (s.phase = .candidate → jsTruthy label → label ≠ s.candidatePose →
        fsmUpdate label info t s =
          { s with candidatePose := label, candidateSince := t,
                   lastSeen := t }) ∧
      (s.phase = .candidate → jsTruthy label → label = s.candidatePose →
        POSE_DWELL_MS ≤ t - s.candidateSince → confOK info → marginOK info →
        (fsmUpdate label info t s).phase = .locked ∧
        (fsmUpdate label info t s).lockedPose = s.candidatePose ∧
        (fsmUpdate label info t s).lockedSince = t) ∧
      (s.phase = .locked →
        (fsmUpdate label info t s).phase = .locked ∨
        (fsmUpdate label info t s).phase = .cooldown) := by
  intro s label info t
  refine ⟨?_, ?_, ?_, ?_⟩
  · intro hp htr heq hlt
    have hnd : ¬ POSE_DWELL_MS ≤ t - s.candidateSince := by linarith
    subst heq
    unfold fsmUpdate
    simp [hp, htr, hnd]
  · intro hp htr hne
    unfold fsmUpdate
    simp [hp, htr, hne]
  · intro hp htr heq hge hc hm
    subst heq
    unfold fsmUpdate
    simp [hp, htr, hge, hc, hm]
  · intro hp
    unfold fsmUpdate
    simp only [hp]
    split
    · exact Or.inl rfl
    · split
      · exact Or.inr rfl
      · exact Or.inl rfl

/-- Witness for `C4_dwell`: a slot in `candidate` on `'star'` since time 0:
at `t = 399` the same label does not lock; at `t = 100` the label
`'zigzag'` restarts the dwell; at `t = 400` the same label locks with
`lockedSince = 400`; and a locked slot steps to `locked` or `cooldown`. -/
theorem C4_witness :
    (fsmUpdate (some "star") defaultInfo 399
        ⟨.candidate, some "star", 0, none, 0, 0, 0⟩
      = { (⟨.candidate, some "star", 0, none, 0, 0, 0⟩ : FSMState) with
            lastSeen := 399 }) ∧
    (fsmUpdate (some "zigzag") defaultInfo 100
        ⟨.candidate, some "star", 0, none, 0, 0, 0⟩
      = { (⟨.candidate, some "star", 0, none, 0, 0, 0⟩ : FSMState) with
            candidatePose := some "zigzag", candidateSince := 100,
            lastSeen := 100 }) ∧
    ((fsmUpdate (some "star") defaultInfo 400
        ⟨.candidate, some "star", 0, none, 0, 0, 0⟩).phase = .locked ∧
      (fsmUpdate (some "star") defaultInfo 400
        ⟨.candidate, some "star", 0, none, 0, 0, 0⟩).lockedPose
        = some "star" ∧
      (fsmUpdate (some "star") defaultInfo 400
        ⟨.candidate, some "star", 0, none, 0, 0, 0⟩).lockedSince = 400) ∧
    ((fsmUpdate (some "star") defaultInfo 50
        ⟨.locked, none, 0, some "zigzag", 0, 0, 0⟩).phase = .locked ∨
      (fsmUpdate (some "star") defaultInfo 50
        ⟨.locked, none, 0, some "zigzag", 0, 0, 0⟩).phase = .cooldown) :=
  ⟨(C4_dwell ⟨.candidate, some "star", 0, none, 0, 0, 0⟩ (some "star")
      defaultInfo 399).1 rfl rfl rfl (by norm_num [POSE_DWELL_MS]),
    (C4_dwell ⟨.candidate, some "star", 0, none, 0, 0, 0⟩ (some "zigzag")
      defaultInfo 100).2.1 rfl rfl (by simp),
    (C4_dwell ⟨.candidate, some "star", 0, none, 0, 0, 0⟩ (some "star")
      defaultInfo 400).2.2.1 rfl rfl rfl (by norm_num [POSE_DWELL_MS]) rfl rfl,
    (C4_dwell ⟨.locked, none, 0, some "zigzag", 0, 0, 0⟩ (some "star")
      defaultInfo 50).2.2.2 rfl⟩

/-- C5: in `cooldown`, an update at a time strictly before `cooldownUntil`
changes nothing (no candidate can start, whatever the label); the
`locked → cooldown` transition clears `lockedPose` and sets
`cooldownUntil = t + STICKER_COOLDOWN_MS`; and for any reachable state a
single update can never change `lockedPose` from one non-null label to a
different non-null label (outside `locked` the stored `lockedPose` is null,
so a change of locked label must pass through `cooldown`). -/
theorem C5_cooldown_gate :
    ∀ (s : FSMState) (label : Option String) (info : DetectedInfo) (t : ℚ),
      Reachable s →
      (s.phase = .cooldown → t < s.cooldownUntil →
        fsmUpdate label info t s = { s with lastSeen := t }) ∧
      (s.phase = .locked → (fsmUpdate label info t s).phase = .cooldown →
        (fsmUpdate label info t s).lockedPose = none ∧
        (fsmUpdate label info t s).cooldownUntil
          = t + STICKER_COOLDOWN_MS) ∧
      (∀ a b : String, s.lockedPose = some a →
        (fsmUpdate label info t s).lockedPose = some b → a = b) := by
  intro s label info t hreach
  refine ⟨?_, ?_, ?_⟩
  · intro hp hlt
    have hnle : ¬ s.cooldownUntil ≤ t := by linarith
    unfold fsmUpdate
    simp [hp, hnle]
  · intro hp
    unfold fsmUpdate
    simp only [hp]
    split
    · intro hc
      simp at hc
    · split
      · exact fun _ => ⟨rfl, rfl⟩
      · intro hc
        simp at hc
  · intro a b ha hb
    rcases locked_or_lockedPose_none hreach with hp | hnone
    · unfold fsmUpdate at hb
      simp only [hp] at hb
      split at hb
      · simp [ha] at hb
        exact hb
      · split at hb
        · simp at hb
        · simp [ha] at hb
          exact hb
    · rw [hnone] at ha
      exact absurd ha (by simp)

/-- Witness for `C5_cooldown_gate`: drive a fresh slot to `candidate`
(`'star'` at `t = 0`), to `locked` (`t = 400`), then unlock at `t = 1700`
(entering `cooldown` until `2100`); an update at `t = 1800 < 2100` with a
new label `'zigzag'` changes nothing. -/
theorem C5_witness :
    fsmUpdate (some "zigzag") defaultInfo 1800
        (fsmUpdate none defaultInfo 1700
          (fsmUpdate (some "star") defaultInfo 400
            (fsmUpdate (some "star") defaultInfo 0 (initFSMState 0))))
      = { (fsmUpdate none defaultInfo 1700
            (fsmUpdate (some "star") defaultInfo 400
              (fsmUpdate (some "star") defaultInfo 0 (initFSMState 0))))
          with lastSeen := 1800 } :=
  (C5_cooldown_gate _ (some "zigzag") defaultInfo 1800
      (.step _ _ _ (.step _ _ _ (.step _ _ _ (.init 0))))).1
    (by simp [fsmUpdate, initFSMState, defaultInfo, jsTruthy, confOK,
      marginOK, POSE_DWELL_MS, GRACE_MS, STICKER_MIN_SHOW_MS,
      STICKER_COOLDOWN_MS] <;> norm_num)
    (by simp [fsmUpdate, initFSMState, defaultInfo, jsTruthy, confOK,
      marginOK, POSE_DWELL_MS, GRACE_MS, STICKER_MIN_SHOW_MS,
      STICKER_COOLDOWN_MS] <;> norm_num)

/-! ## Square-root comparisons in squared form -/

/-- Equivalence `Real.sqrt b * c < Real.sqrt a ↔ b * c² < a` for nonnegative operands:
justifies embedding `armLength > forearmLength * 1.6` (both square roots)
as `forearmLengthSq * 1.6² < armLengthSq`. -/
theorem sqrt_lt_sqrt_mul_sq_iff {a b c : ℝ} (hb : 0 ≤ b) (hc : 0 ≤ c) :
    Real.sqrt b * c < Real.sqrt a ↔ b * c ^ 2 < a := by
  rw [show Real.sqrt b * c = Real.sqrt (b * c ^ 2) by
      rw [Real.sqrt_mul hb, Real.sqrt_sq hc]]
  exact Real.sqrt_lt_sqrt_iff (by positivity)

/-- Equivalence `Real.sqrt a < c ↔ a < c²` for nonnegative `a` and `c`: justifies
embedding `dist < shoulderWidth * k` as `distSq < (shoulderWidth * k)²`. -/
theorem sqrt_lt_of_sq_iff {a c : ℝ} (ha : 0 ≤ a) (hc : 0 ≤ c) :
    Real.sqrt a < c ↔ a < c ^ 2 := by
  rcases hc.eq_or_lt with h | h
  · constructor
    · intro hlt
      exact absurd (lt_of_le_of_lt (Real.sqrt_nonneg a) hlt) (by rw [← h]; simp)
    · intro hlt
      exact absurd (lt_of_le_of_lt ha hlt) (by rw [← h]; simp)
  · exact Real.sqrt_lt' h

/-! ## Claims C6 and C7 -/

/-- Evaluator `firstMatchLabel` really is "first satisfied rule wins": if rule `i` is
satisfied, some least satisfied index `k ≤ i` exists whose label is
returned, and every rule before `k` is unsatisfied. -/
theorem firstMatchLabel_spec :
    ∀ (rules : List ((Pose → Bool) × String)) (pose : Pose) (i : ℕ)
      (hi : i < rules.length),
      (rules.get ⟨i, hi⟩).1 pose = true →
      ∃ (k : ℕ) (hk : k < rules.length), k ≤ i ∧
        (rules.get ⟨k, hk⟩).1 pose = true ∧
        firstMatchLabel rules pose = some (rules.get ⟨k, hk⟩).2 ∧
        ∀ (j : ℕ) (hj : j < rules.length), j < k →
          (rules.get ⟨j, hj⟩).1 pose = false := by
  intro rules
  induction rules with
  | nil => intro pose i hi; simp at hi
  | cons r rest ih =>
      intro pose i hi hsat
      by_cases hr : r.1 pose
      · refine ⟨0, by simp, Nat.zero_le _, by simpa using hr, ?_, ?_⟩
        · simp [firstMatchLabel, hr]
        · intro j hj hjk
          exact absurd hjk (Nat.not_lt_zero j)
      · cases i with
        | zero => exact absurd (by simpa using hsat) hr
        | succ i' =>
            have hi' : i' < rest.length := by
              simpa using Nat.lt_of_succ_lt_succ hi
            have hsat' : (rest.get ⟨i', hi'⟩).1 pose = true := by
              simpa using hsat
            obtain ⟨k, hk, hki, hsatk, heq, hmin⟩ := ih pose i' hi' hsat'
            refine ⟨k + 1, by simpa using Nat.succ_lt_succ hk,
              Nat.succ_le_succ hki, by simpa using hsatk, ?_, ?_⟩
            · simpa [firstMatchLabel, hr] using heq
            · intro j hj hjk
              cases j with
              | zero => simpa using hr
              | succ j' =>
                  have hj' : j' < rest.length := by
                    simpa using Nat.lt_of_succ_lt_succ hj
                  simpa using hmin j' hj' (Nat.lt_of_succ_lt_succ hjk)

/-- C6 counterexample: the claim says the classifier returns `neutral`
whenever any joint of the required subset — nose, both shoulders, both
wrists — has confidence below `0.3`.  The source checks the confidences of
wrists and shoulders only (lines 739-740), never the nose's: on
`c6NoseLowPose` the nose keypoint is present with confidence `0.1 < 0.3`,
yet the classifier returns `"arms_up"`, not `"neutral"`. -/
theorem C6_counterexample :
    (findKp c6NoseLowPose "nose").isSome = true ∧
    (findKp c6NoseLowPose "nose").get!.confidence < 0.3 ∧
    analyzeState c6NoseLowPose = "arms_up" := by
  refine ⟨rfl, ?_, ?_⟩
  · norm_num [findKp, c6NoseLowPose, List.find?]
  · simp [analyzeState, c6NoseLowPose, criticalMissing, lowConfidence,
      starPose, armsUpPose, findKp, leftArmExtended, rightArmExtended,
      wristsSymmetric, distSq, List.find?]
    norm_num

/-- C6 (amended): the classifier returns `neutral` whenever any of the
seven critical joints (both wrists, both elbows, both shoulders, nose) is
missing, or any of the four confidence-gated joints — both wrists and both
shoulders, but not the nose — has confidence below `0.3`; no rule is
evaluated in that case. -/
theorem C6_neutral_gate :
    ∀ pose : Pose,
      (((findKp pose "left_wrist").isNone ∨ (findKp pose "right_wrist").isNone ∨
        (findKp pose "left_elbow").isNone ∨ (findKp pose "right_elbow").isNone ∨
        (findKp pose "left_shoulder").isNone ∨ (findKp pose "right_shoulder").isNone ∨
        (findKp pose "nose").isNone) →
        analyzeState pose = "neutral") ∧
      (∀ lw rw ls rs : Keypoint,
        findKp pose "left_wrist" = some lw →
        findKp pose "right_wrist" = some rw →
        findKp pose "left_shoulder" = some ls →
        findKp pose "right_shoulder" = some rs →
        (lw.confidence < 0.3 ∨ rw.confidence < 0.3 ∨
          ls.confidence < 0.3 ∨ rs.confidence < 0.3) →
        analyzeState pose = "neutral") := by
  intro pose
  constructor
  · intro h
    have hcm : criticalMissing pose = true := by
      unfold criticalMissing
      rcases h with h | h | h | h | h | h | h <;> simp [h]
    unfold analyzeState
    rw [if_pos hcm]
  · intro lw rw ls rs hlw hrw hls hrs hconf
    unfold analyzeState
    by_cases hcm : criticalMissing pose = true
    · rw [if_pos hcm]
    · rw [if_neg hcm]
      have hlc : lowConfidence pose = true := by
        unfold lowConfidence
        rw [hlw, hrw, hls, hrs]
        rcases hconf with h | h | h | h <;> simp [Option.get!, h]
      rw [if_pos hlc]

/-- Witness for `C6_neutral_gate`: `c6LowWristPose` has its left wrist at
confidence `0.1 < 0.3`, and the classifier returns `"neutral"` on it. -/
theorem C6_witness : analyzeState c6LowWristPose = "neutral" :=
  (C6_neutral_gate c6LowWristPose).2
    ⟨"left_wrist", 60, 50, 0.1⟩ ⟨"right_wrist", 140, 50, 0.9⟩
    ⟨"left_shoulder", 60, 300, 0.9⟩ ⟨"right_shoulder", 140, 300, 0.9⟩
    rfl rfl rfl rfl (Or.inl (by norm_num))

/-- C7: the classifier equals the spec-side "gate, then ordered rule list,
first satisfied rule wins" classifier with the priority order `star`,
`arms_up`, `side_arms`, `zigzag`, `arms_out`, `rounded`; consequently, when
the gates pass and rule `i` is satisfied, the returned label is the one of
the least satisfied index `k ≤ i`, and no rule after `k` — in particular no
second simultaneously satisfied rule — can override it. -/
theorem C7_rule_priority :
    (∀ pose : Pose, analyzeState pose = classifySpec pose) ∧
    (∀ (pose : Pose) (i : ℕ) (hi : i < poseRules.length),
      criticalMissing pose = false → lowConfidence pose = false →
      (poseRules.get ⟨i, hi⟩).1 pose = true →
      ∃ (k : ℕ) (hk : k < poseRules.length), k ≤ i ∧
        (poseRules.get ⟨k, hk⟩).1 pose = true ∧
        analyzeState pose = (poseRules.get ⟨k, hk⟩).2 ∧
        ∀ (j : ℕ) (hj : j < poseRules.length), j < k →
          (poseRules.get ⟨j, hj⟩).1 pose = false) := by
  have hrefine : ∀ pose : Pose, analyzeState pose = classifySpec pose := by
    intro pose
    unfold analyzeState classifySpec
    by_cases h1 : criticalMissing pose = true
    · simp [h1]
    · by_cases h2 : lowConfidence pose = true
      · simp [h1, h2]
      · have h1f : criticalMissing pose = false := by simpa using h1
        have h2f : lowConfidence pose = false := by simpa using h2
        simp only [h1f, h2f, Bool.or_self, Bool.false_eq_true, if_false,
          poseRules, firstMatchLabel]
        split_ifs <;> simp
  refine ⟨hrefine, ?_⟩
  intro pose i hi hg1 hg2 hsat
  obtain ⟨k, hk, hki, hsatk, heq, hmin⟩ :=
    firstMatchLabel_spec poseRules pose i hi hsat
  refine ⟨k, hk, hki, hsatk, ?_, hmin⟩
  rw [hrefine pose]
  unfold classifySpec
  rw [hg1, hg2]
  simp [heq]

/-- Witness for `C7_rule_priority`: `c7TwoRulePose` passes both gates and
satisfies the ARMS OUT rule (index 4); the theorem yields a least satisfied
index `k ≤ 4` whose label the classifier returns. -/
theorem C7_witness :
    ∃ (k : ℕ) (hk : k < poseRules.length), k ≤ 4 ∧
      (poseRules.get ⟨k, hk⟩).1 c7TwoRulePose = true ∧
      analyzeState c7TwoRulePose = (poseRules.get ⟨k, hk⟩).2 ∧
      ∀ (j : ℕ) (hj : j < poseRules.length), j < k →
        (poseRules.get ⟨j, hj⟩).1 c7TwoRulePose = false :=
  C7_rule_priority.2 c7TwoRulePose 4 (by norm_num [poseRules])
    (by rfl)
    (by
      simp [lowConfidence, c7TwoRulePose, findKp, List.find?, Option.get!]
      norm_num)
    (by
      show armsOutPose c7TwoRulePose = true
      simp [armsOutPose, c7TwoRulePose, findKp, List.find?,
        Option.get!, leftArmExtended, rightArmExtended, leftArmSpread,
        rightArmSpread, wristsSymmetric, shoulderWidth, distSq]
      norm_num)

/-! ## Claim C9 -/

/-- After `n` feeds of the same raw value, the deviation of the accumulator
from the raw value is exactly `α^n` times the initial deviation. -/
theorem emaIterate_sub (α : ℚ) (s0 : EmaPoint) (x y : ℚ) (n : ℕ) :
    (emaIterate α s0 x y n).x - x = α ^ n * (s0.x - x) ∧
    (emaIterate α s0 x y n).y - y = α ^ n * (s0.y - y) := by
  induction n with
  | zero => simp [emaIterate]
  | succ n ih =>
      simp only [emaIterate, emaPointAlpha, Option.getD_some, pow_succ]
      constructor
      · linear_combination α * ih.1
      · linear_combination α * ih.2

/-- C9: the EMA accumulator returns exactly the raw value on the first
observation of a name (seeding `s = raw` makes the update
`α·raw + (1-α)·raw = raw`); with `α = 0` the smoothed value equals the raw
value exactly; and with the configured `α = SMOOTH_POS = 0.80`, feeding the
same raw value repeatedly brings the accumulator within any `ε > 0` of that
raw value from some number of feeds on. -/
theorem C9_ema_smoothing :
    (∀ (α x y : ℚ), emaPointAlpha α none x y = ⟨x, y⟩) ∧
    (∀ (s : EmaPoint) (x y : ℚ), emaPointAlpha 0 (some s) x y = ⟨x, y⟩) ∧
    (∀ (s0 : EmaPoint) (x y ε : ℚ), 0 < ε →
      ∃ N : ℕ, ∀ n, N ≤ n →
        |(emaIterate SMOOTH_POS s0 x y n).x - x| ≤ ε ∧
        |(emaIterate SMOOTH_POS s0 x y n).y - y| ≤ ε) := by
  refine ⟨?_, ?_, ?_⟩
  · intro α x y
    simp [emaPointAlpha]
    constructor <;> ring
  · intro s x y
    simp [emaPointAlpha]
  · intro s0 x y ε hε
    set C : ℚ := max |s0.x - x| |s0.y - y| with hC
    have hC0 : 0 ≤ C := le_trans (abs_nonneg _) (le_max_left _ _)
    have hδ : 0 < ε / (C + 1) := div_pos hε (by linarith)
    obtain ⟨N, hN⟩ := exists_pow_lt_of_lt_one hδ
      (show SMOOTH_POS < 1 by norm_num [SMOOTH_POS])
    refine ⟨N, fun n hn => ?_⟩
    have hpow : SMOOTH_POS ^ n ≤ SMOOTH_POS ^ N :=
      pow_le_pow_of_le_one (by norm_num [SMOOTH_POS])
        (by norm_num [SMOOTH_POS]) hn
    have hpow0 : 0 ≤ SMOOTH_POS ^ n := pow_nonneg (by norm_num [SMOOTH_POS]) n
    have key : ∀ d : ℚ, |d| ≤ C → |SMOOTH_POS ^ n * d| ≤ ε := by
      intro d hd
      rw [abs_mul, abs_of_nonneg hpow0]
      have h1 : SMOOTH_POS ^ n * |d| ≤ SMOOTH_POS ^ N * C :=
        mul_le_mul hpow hd (abs_nonneg d) (pow_nonneg (by norm_num [SMOOTH_POS]) N)
      have h2 : SMOOTH_POS ^ N * C ≤ (ε / (C + 1)) * C :=
        mul_le_mul_of_nonneg_right (le_of_lt hN) hC0
      have h3 : (ε / (C + 1)) * C ≤ ε := by
        rw [div_mul_eq_mul_div, div_le_iff (by linarith : (0:ℚ) < C + 1)]
        nlinarith
      linarith
    obtain ⟨hx, hy⟩ := emaIterate_sub SMOOTH_POS s0 x y n
    exact ⟨by rw [hx]; exact key _ (le_max_left _ _),
      by rw [hy]; exact key _ (le_max_right _ _)⟩

/-- Witness for `C9_ema_smoothing`: from accumulator `(0,0)` with raw value
`(1,1)`, some number of feeds brings the accumulator within `1/100`. -/
theorem C9_witness :
    ∃ N : ℕ, ∀ n, N ≤ n →
      |(emaIterate SMOOTH_POS ⟨0, 0⟩ 1 1 n).x - 1| ≤ (1 : ℚ)/100 ∧
      |(emaIterate SMOOTH_POS ⟨0, 0⟩ 1 1 n).y - 1| ≤ (1 : ℚ)/100 :=
  C9_ema_smoothing.2.2 ⟨0, 0⟩ 1 1 (1/100) (by norm_num)

/-! ### Helper lemmas about option-array surgery -/

/-- Setting an empty (`none`) slot to `some x` adds `x` to the collapsed
(`filterMap id`) contents, up to permutation. -/
theorem filterMap_set_none_perm {α : Type} (l : List (Option α)) (j : ℕ)
    (x : α) (hj : l.get? j = some none) :
    ((l.set j (some x)).filterMap id).Perm (x :: l.filterMap id) := by
  induction l generalizing j with
  | nil => simp at hj
  | cons o tl ih =>
      cases j with
      | zero =>
          simp only [List.get?] at hj
          have : o = none := by simpa using hj
          subst this
          simp
      | succ j' =>
          simp only [List.get?] at hj
          cases o with
          | none =>
              simpa using ih j' hj
          | some a =>
              simpa using ((ih j' hj).cons a).trans (List.Perm.swap x a _)

/-- The collapsed length is the number of `some` entries. -/
theorem length_filterMap_id {α : Type} (l : List (Option α)) :
    (l.filterMap id).length = l.countP (·.isSome) := by
  induction l with
  | nil => simp
  | cons o tl ih =>
      cases o <;> simp [List.countP_cons, ih]

/-- A list of options with fewer `some`s than entries has an empty slot. -/
theorem exists_none_of_countP_lt {α : Type} (l : List (Option α))
    (h : l.countP (·.isSome) < l.length) : ∃ j, l.get? j = some none := by
  induction l with
  | nil => simp at h
  | cons o tl ih =>
      cases o with
      | none => exact ⟨0, rfl⟩
      | some a =>
          have : tl.countP (·.isSome) < tl.length := by
            simpa [List.countP_cons] using h
          obtain ⟨j, hj⟩ := ih this
          exact ⟨j + 1, by simpa using hj⟩

/-- Fuel-indexed auxiliary for `firstEmptyFrom_spec`. -/
theorem firstEmptyFrom_spec_aux (fuel : ℕ) :
    ∀ (l : List (Option Pose)) (i : ℕ), l.length - i ≤ fuel →
    (∃ j, i ≤ j ∧ l.get? j = some none) →
    l.get? (firstEmptyFrom l i) = some none ∧ i ≤ firstEmptyFrom l i ∧
      ∀ j, i ≤ j → j < firstEmptyFrom l i →
        ∃ p, l.get? j = some (some p) := by
  induction fuel with
  | zero =>
      rintro l i hle ⟨j0, hij0, hj0⟩
      have := (List.get?_eq_some.mp hj0).1
      omega
  | succ fuel ih =>
      rintro l i hle ⟨j0, hij0, hj0⟩
      have hj0lt : j0 < l.length := (List.get?_eq_some.mp hj0).1
      have hi : i < l.length := by omega
      unfold firstEmptyFrom
      rw [dif_pos hi]
      rcases hoi : l.get ⟨i, hi⟩ with _ | p
      · -- current slot empty: return i
        rw [if_neg (by simp [hoi])]
        refine ⟨?_, le_refl i,
          fun j h1 h2 => absurd (lt_of_le_of_lt h1 h2) (lt_irrefl i)⟩
        rw [List.get?_eq_some]
        exact ⟨hi, hoi⟩
      · -- current slot full: scan on
        rw [if_pos (by simp [hoi])]
        have hij0' : i + 1 ≤ j0 := by
          rcases Nat.eq_or_lt_of_le hij0 with h | h
          · exfalso
            rw [← h] at hj0
            rw [List.get?_eq_some] at hj0
            obtain ⟨_, hg⟩ := hj0
            rw [hoi] at hg
            simp at hg
          · omega
        obtain ⟨ha, hb, hc⟩ := ih l (i + 1) (by omega) ⟨j0, hij0', hj0⟩
        refine ⟨ha, by omega, fun j h1 h2 => ?_⟩
        rcases Nat.eq_or_lt_of_le h1 with h | h
        · subst h
          exact ⟨p, by rw [List.get?_eq_some]; exact ⟨hi, hoi⟩⟩
        · exact hc j h h2

/-- Specification of the `nextSlot` scan: if some slot at or after `i` is
empty, `firstEmptyFrom` returns the least such index (all slots between `i`
and it are full). -/
theorem firstEmptyFrom_spec (l : List (Option Pose)) (i : ℕ)
    (h : ∃ j, i ≤ j ∧ l.get? j = some none) :
    l.get? (firstEmptyFrom l i) = some none ∧ i ≤ firstEmptyFrom l i ∧
      ∀ j, i ≤ j → j < firstEmptyFrom l i →
        ∃ p, l.get? j = some (some p) :=
  firstEmptyFrom_spec_aux l.length l i (by omega) h

/-- Entries of an all-`none` array. -/
theorem get?_replicate_none {α : Type} (n j : ℕ) (h : j < n) :
    (List.replicate n (none : Option α)).get? j = some none := by
  rw [List.get?_eq_getElem?, List.getElem?_eq_getElem (by simpa using h)]
  simp

/-! ### Lemmas about `placeMatched` and the matched/unmatched split -/

/-- Function `placeMatched` preserves the array length. -/
theorem placeMatched_length (cur : List Pose) :
    ∀ (matched : List (Option ℕ)) (reordered : List (Option Pose)),
      (placeMatched cur matched reordered).length = reordered.length := by
  induction cur with
  | nil => intro matched reordered; cases matched <;> rfl
  | cons p cur ih =>
      intro matched reordered
      cases matched with
      | nil => rfl
      | cons mo ms =>
          cases mo with
          | none => simpa [placeMatched] using ih ms reordered
          | some j =>
              simpa [placeMatched] using (ih ms (reordered.set j (some p))).trans (by simp)

/-- Slots not named in `matched` are untouched by `placeMatched`. -/
theorem placeMatched_get?_not_mem (cur : List Pose) :
    ∀ (matched : List (Option ℕ)) (reordered : List (Option Pose)) (j : ℕ),
      some j ∉ matched →
      (placeMatched cur matched reordered).get? j = reordered.get? j := by
  induction cur with
  | nil => intro matched reordered j _; cases matched <;> rfl
  | cons p cur ih =>
      intro matched reordered j hj
      cases matched with
      | nil => rfl
      | cons mo ms =>
          have hj1 : some j ∉ ms := fun h => hj (List.mem_cons_of_mem _ h)
          cases mo with
          | none => simpa [placeMatched] using ih ms reordered j hj1
          | some j' =>
              have hne : j' ≠ j := fun h => hj (h ▸ List.mem_cons_self _ _)
              simp only [placeMatched]
              rw [ih ms _ j hj1, List.get?_set_ne _ _ hne]

/-- Function `placeMatched` never empties an occupied slot. -/
theorem placeMatched_preserves_isSome (cur : List Pose) :
    ∀ (matched : List (Option ℕ)) (reordered : List (Option Pose)) (j : ℕ)
      (p : Pose), reordered.get? j = some (some p) →
      ∃ q, (placeMatched cur matched reordered).get? j = some (some q) := by
  induction cur with
  | nil =>
      intro matched reordered j p h
      cases matched <;> exact ⟨p, h⟩
  | cons x cur ih =>
      intro matched reordered j p h
      cases matched with
      | nil => exact ⟨p, h⟩
      | cons mo ms =>
          cases mo with
          | none => simpa [placeMatched] using ih ms reordered j p h
          | some j' =>
              simp only [placeMatched]
              by_cases hje : j' = j
              · subst hje
                have hlt : j' < reordered.length := by
                  have := (List.get?_eq_some.mp h).1
                  omega
                exact ih ms _ j' x (List.get?_set_eq_of_lt _ hlt)
              · exact ih ms _ j p (by rw [List.get?_set_ne _ _ hje]; exact h)

/-- A slot named in `matched` (inside `cur`'s range) ends up occupied. -/
theorem placeMatched_get?_isSome (cur : List Pose) :
    ∀ (matched : List (Option ℕ)) (reordered : List (Option Pose)) (j : ℕ),
      some j ∈ matched → matched.length ≤ cur.length →
      j < reordered.length →
      ∃ q, (placeMatched cur matched reordered).get? j = some (some q) := by
  induction cur with
  | nil =>
      intro matched reordered j hmem hlen _
      rw [List.length_eq_zero.mp (Nat.le_zero.mp hlen)] at hmem
      simp at hmem
  | cons x cur ih =>
      intro matched reordered j hmem hlen hj
      cases matched with
      | nil => simp at hmem
      | cons mo ms =>
          rcases List.mem_cons.mp hmem with h | h
          · subst h
            simp only [placeMatched]
            exact placeMatched_preserves_isSome cur ms _ j x
              (List.get?_set_eq_of_lt _ hj)
          · cases mo with
            | none =>
                simp only [placeMatched]
                exact ih ms reordered j h (by simpa using hlen) hj
            | some j' =>
                simp only [placeMatched]
                exact ih ms _ j h (by simpa using hlen) (by simpa using hj)

/-- Function `placeMatched` adds exactly the matched poses to the collapsed array,
when the matched indices are distinct and point at empty slots. -/
theorem placeMatched_perm (cur : List Pose) :
    ∀ (matched : List (Option ℕ)) (reordered : List (Option Pose)),
      (matched.filterMap id).Nodup →
      (∀ j, some j ∈ matched → reordered.get? j = some none) →
      ((placeMatched cur matched reordered).filterMap id).Perm
        (pairedSome cur matched ++ reordered.filterMap id) := by
  induction cur with
  | nil =>
      intro matched reordered _ _
      cases matched <;> simp [placeMatched, pairedSome]
  | cons p cur ih =>
      intro matched reordered hnd hempty
      cases matched with
      | nil => simp [placeMatched, pairedSome]
      | cons mo ms =>
          cases mo with
          | none =>
              have h1 : (ms.filterMap id).Nodup := by
                simpa [List.filterMap_cons] using hnd
              have h2 : ∀ j, some j ∈ ms → reordered.get? j = some none :=
                fun j hm => hempty j (List.mem_cons_of_mem _ hm)
              simpa [placeMatched, pairedSome] using ih ms reordered h1 h2
          | some j =>
              have hempj : reordered.get? j = some none :=
                hempty j (List.mem_cons_self _ _)
              have hndc : some j ∉ ms ∧ (ms.filterMap id).Nodup := by
                simpa [List.filterMap_cons, List.nodup_cons] using hnd
              have h1 : (ms.filterMap id).Nodup := hndc.2
              have h2 : ∀ j', some j' ∈ ms →
                  (reordered.set j (some p)).get? j' = some none := by
                intro j' hm
                have hne : j ≠ j' := by
                  intro h
                  exact hndc.1 (h ▸ hm)
                rw [List.get?_set_ne _ _ hne]
                exact hempty j' (List.mem_cons_of_mem _ hm)
              have hstep := filterMap_set_none_perm reordered j p hempj
              have hrec := ih ms (reordered.set j (some p)) h1 h2
              have : ((placeMatched cur ms (reordered.set j (some p))).filterMap id).Perm
                  (pairedSome cur ms ++ (p :: reordered.filterMap id)) :=
                hrec.trans (List.Perm.append_left _ hstep)
              simpa [placeMatched, pairedSome] using
                this.trans List.perm_middle

/-- The matched and unmatched poses together are the current poses. -/
theorem cur_perm_paired (cur : List Pose) :
    ∀ matched : List (Option ℕ), cur.length ≤ matched.length →
      cur.Perm (pairedSome cur matched ++ pairedNone cur matched) := by
  induction cur with
  | nil => intro matched _; simp [pairedSome, pairedNone]
  | cons p cur ih =>
      intro matched hlen
      cases matched with
      | nil => simp at hlen
      | cons mo ms =>
          have hrec := ih ms (by simpa using hlen)
          cases mo with
          | none =>
              simp only [pairedSome, pairedNone, Option.isSome_none,
                Bool.false_eq_true, if_false]
              exact (hrec.cons p).trans List.perm_middle.symm
          | some j =>
              simp only [pairedSome, pairedNone, Option.isSome_some, if_true]
              exact (hrec.cons p)

/-- The matched/unmatched split partitions the lengths. -/
theorem paired_length (cur : List Pose) :
    ∀ matched : List (Option ℕ), cur.length ≤ matched.length →
      (pairedSome cur matched).length + (pairedNone cur matched).length
        = cur.length := by
  intro matched hlen
  have := (cur_perm_paired cur matched hlen).length_eq
  simpa using this.symm

/-- The number of matched poses is the number of `some` entries of
`matched` (when `matched` is no longer than `cur`). -/
theorem pairedSome_length (cur : List Pose) :
    ∀ matched : List (Option ℕ), matched.length ≤ cur.length →
      (pairedSome cur matched).length = matched.countP (·.isSome) := by
  induction cur with
  | nil =>
      intro matched hlen
      rw [List.length_eq_zero.mp (Nat.le_zero.mp hlen)]
      simp [pairedSome]
  | cons p cur ih =>
      intro matched hlen
      cases matched with
      | nil => simp [pairedSome]
      | cons mo ms =>
          cases mo with
          | none =>
              simpa [pairedSome, List.countP_cons] using
                ih ms (by simpa using hlen)
          | some j =>
              simpa [pairedSome, List.countP_cons] using
                ih ms (by simpa using hlen)

/-! ### Lemmas about `fillUnmatched` and the greedy pass -/

/-- Function `fillUnmatched` adds exactly the unmatched poses to the collapsed
array, provided there is room for them and everything below the scan
position is occupied. -/
theorem fillUnmatched_perm (cur : List Pose) :
    ∀ (matched : List (Option ℕ)) (reordered : List (Option Pose))
      (nextSlot : ℕ),
      cur.length ≤ matched.length →
      reordered.countP (·.isSome) + (pairedNone cur matched).length
        ≤ reordered.length →
      (∀ i, i < nextSlot → reordered.get? i ≠ some none) →
      ((fillUnmatched cur matched reordered nextSlot).filterMap id).Perm
        (pairedNone cur matched ++ reordered.filterMap id) := by
  induction cur with
  | nil =>
      intro matched reordered nextSlot _ _ _
      cases matched <;> simp [fillUnmatched, pairedNone]
  | cons p cur ih =>
      intro matched reordered nextSlot hlen hcount hpre
      cases matched with
      | nil => simp at hlen
      | cons mo ms =>
          cases mo with
          | some j' =>
              have h1 : cur.length ≤ ms.length := by simpa using hlen
              have h2 : reordered.countP (·.isSome)
                  + (pairedNone cur ms).length ≤ reordered.length := by
                simpa [pairedNone] using hcount
              simpa [fillUnmatched, pairedNone] using
                ih ms reordered nextSlot h1 h2 hpre
          | none =>
              have hpn : (pairedNone (p :: cur) (none :: ms)).length
                  = (pairedNone cur ms).length + 1 := by
                simp [pairedNone]
              -- there is an empty slot at or after nextSlot
              have hlt : reordered.countP (·.isSome) < reordered.length := by
                rw [hpn] at hcount; omega
              obtain ⟨j0, hj0⟩ := exists_none_of_countP_lt reordered hlt
              have hj0ge : nextSlot ≤ j0 := by
                by_contra hcon
                exact hpre j0 (by omega) hj0
              obtain ⟨hempty, hge, hmin⟩ :=
                firstEmptyFrom_spec reordered nextSlot ⟨j0, hj0ge, hj0⟩
              set j := firstEmptyFrom reordered nextSlot with hjdef
              have hjlt : j < reordered.length := (List.get?_eq_some.mp hempty).1
              -- conditions for the recursive call on `reordered.set j (some p)`
              have h1 : cur.length ≤ ms.length := by simpa using hlen
              have h2 : (reordered.set j (some p)).countP (·.isSome)
                  + (pairedNone cur ms).length
                  ≤ (reordered.set j (some p)).length := by
                have hgetj : reordered[j] = none := by
                  have h' := hempty
                  rwa [List.get?_eq_getElem?, List.getElem?_eq_getElem hjlt,
                    Option.some_inj] at h'
                rw [List.countP_set _ _ _ _ hjlt, List.length_set, hgetj]
                rw [hpn] at hcount
                simp only [Option.isSome_none, Option.isSome_some,
                  Bool.false_eq_true, if_false, if_true]
                omega
              have h3 : ∀ i, i < j → (reordered.set j (some p)).get? i ≠ some none := by
                intro i hij
                rw [List.get?_set_ne _ _ (by omega)]
                by_cases hin : i < nextSlot
                · exact hpre i hin
                · obtain ⟨q, hq⟩ := hmin i (by omega) hij
                  rw [hq]
                  simp
              have hstep := filterMap_set_none_perm reordered j p hempty
              have hrec := ih ms (reordered.set j (some p)) j h1 h2 h3
              have hch : ((fillUnmatched cur ms (reordered.set j (some p)) j).filterMap id).Perm
                  (pairedNone cur ms ++ (p :: reordered.filterMap id)) :=
                hrec.trans (List.Perm.append_left _ hstep)
              simpa [fillUnmatched, pairedNone, ← hjdef] using
                hch.trans List.perm_middle

/-- Setting the first slot of the empty tail region appends to the
collapsed contents: if slot `c` is empty and everything after `c` is empty
too, collapsing `l.set c (some x)` appends `x` at the end. -/
theorem filterMap_set_boundary {α : Type} (l : List (Option α)) :
    ∀ (c : ℕ) (x : α), l.get? c = some none →
      (∀ i, c < i → ∀ q, l.get? i ≠ some (some q)) →
      (l.set c (some x)).filterMap id = l.filterMap id ++ [x] := by
  induction l with
  | nil => intro c x hc _; simp at hc
  | cons o tl ih =>
      intro c x hc hall
      cases c with
      | zero =>
          have : o = none := by simpa using hc
          subst this
          have htl : tl.filterMap id = [] := by
            rw [List.filterMap_eq_nil]
            intro a ha
            obtain ⟨n, hn⟩ := List.get?_of_mem ha
            cases a with
            | none => rfl
            | some q =>
                exact absurd (by simpa using hn)
                  (hall (n + 1) (by omega) q)
          simp [htl]
      | succ c' =>
          have hc' : tl.get? c' = some none := by simpa using hc
          have hall' : ∀ i, c' < i → ∀ q, tl.get? i ≠ some (some q) := by
            intro i hi q
            have := hall (i + 1) (by omega) q
            simpa using this
          cases o with
          | none => simpa using ih c' x hc' hall'
          | some a => simpa using ih c' x hc' hall'

/-- When the occupied slots form exactly the prefix `[0, c)` (and there is
room), `fillUnmatched` appends the unmatched poses, in order, right after
them. -/
theorem fillUnmatched_append (cur : List Pose) :
    ∀ (matched : List (Option ℕ)) (reordered : List (Option Pose))
      (nextSlot c : ℕ),
      cur.length ≤ matched.length →
      nextSlot ≤ c →
      (∀ i, c ≤ i → i < reordered.length → reordered.get? i = some none) →
      (∀ i, nextSlot ≤ i → i < c → ∃ q, reordered.get? i = some (some q)) →
      c + (pairedNone cur matched).length ≤ reordered.length →
      (fillUnmatched cur matched reordered nextSlot).filterMap id
        = reordered.filterMap id ++ pairedNone cur matched := by
  induction cur with
  | nil =>
      intro matched reordered nextSlot c _ _ _ _ _
      cases matched <;> simp [fillUnmatched, pairedNone]
  | cons p cur ih =>
      intro matched reordered nextSlot c hlen hnc htail hmid hroom
      cases matched with
      | nil => simp at hlen
      | cons mo ms =>
          cases mo with
          | some j' =>
              have h1 : cur.length ≤ ms.length := by simpa using hlen
              have hpn : pairedNone (p :: cur) (some j' :: ms)
                  = pairedNone cur ms := by simp [pairedNone]
              rw [hpn] at hroom ⊢
              simpa [fillUnmatched] using
                ih ms reordered nextSlot c h1 hnc htail hmid hroom
          | none =>
              have hpn : pairedNone (p :: cur) (none :: ms)
                  = p :: pairedNone cur ms := by simp [pairedNone]
              rw [hpn] at hroom ⊢
              have hclt : c < reordered.length := by
                simp at hroom
                omega
              have hcempty : reordered.get? c = some none :=
                htail c (le_refl c) hclt
              -- the scan lands exactly on `c`
              obtain ⟨hre, hrge, hrmin⟩ :=
                firstEmptyFrom_spec reordered nextSlot ⟨c, hnc, hcempty⟩
              have hfc : firstEmptyFrom reordered nextSlot = c := by
                rcases lt_trichotomy (firstEmptyFrom reordered nextSlot) c
                  with h | h | h
                · obtain ⟨q, hq⟩ := hmid _ hrge h
                  rw [hq] at hre
                  simp at hre
                · exact h
                · obtain ⟨q, hq⟩ := hrmin c hnc h
                  rw [hq] at hcempty
                  simp at hcempty
              have h1 : cur.length ≤ ms.length := by simpa using hlen
              have hstep := filterMap_set_boundary reordered c p hcempty
                (by
                  intro i hi q hq
                  have := htail i (by omega) (List.get?_eq_some.mp hq).1
                  rw [this] at hq
                  simp at hq)
              have htail' : ∀ i, c + 1 ≤ i →
                  i < (reordered.set c (some p)).length →
                  (reordered.set c (some p)).get? i = some none := by
                intro i hi hilen
                rw [List.get?_set_ne _ _ (by omega)]
                exact htail i (by omega) (by simpa using hilen)
              have hmid' : ∀ i, c ≤ i → i < c + 1 →
                  ∃ q, (reordered.set c (some p)).get? i = some (some q) := by
                intro i hi hic
                have : i = c := by omega
                subst this
                exact ⟨p, List.get?_set_eq_of_lt _ hclt⟩
              have hroom' : (c + 1) + (pairedNone cur ms).length
                  ≤ (reordered.set c (some p)).length := by
                simp only [List.length_set]
                simp at hroom
                omega
              have hrec := ih ms (reordered.set c (some p)) c (c + 1) h1
                (by omega) htail' hmid' hroom'
              calc (fillUnmatched (p :: cur) (none :: ms) reordered
                  nextSlot).filterMap id
                  = (fillUnmatched cur ms (reordered.set c (some p))
                      c).filterMap id := by
                    simp only [fillUnmatched, hfc]
                _ = (reordered.set c (some p)).filterMap id
                      ++ pairedNone cur ms := hrec
                _ = (reordered.filterMap id ++ [p]) ++ pairedNone cur ms := by
                    rw [hstep]
                _ = reordered.filterMap id ++ (p :: pairedNone cur ms) := by
                    simp

/-- The inner greedy scan only ever proposes an unmatched in-range current
index. -/
theorem bestCandidateAux_spec (cost : ℕ → ℕ → WithTop ℝ) (prevIdx : ℕ) :
    ∀ (ms : List (Option ℕ)) (currIdx : ℕ) (best : Option ℕ × WithTop ℝ)
      (i : ℕ),
      (bestCandidateAux cost prevIdx ms currIdx best).1 = some i →
      best.1 = some i ∨ (currIdx ≤ i ∧ ms.get? (i - currIdx) = some none) := by
  intro ms
  induction ms with
  | nil => intro currIdx best i h; exact Or.inl h
  | cons mo ms ih =>
      intro currIdx best i h
      have h' := ih (currIdx + 1) _ i (by simpa [bestCandidateAux] using h)
      rcases h' with h' | ⟨h1, h2⟩
      · by_cases hmo : mo.isSome = true
        · left
          simpa [hmo] using h'
        · by_cases hc : cost currIdx prevIdx < best.2
          · right
            have hi : currIdx = i := by
              have : some currIdx = some i := by simpa [hmo, hc] using h'
              exact Option.some_inj.mp this
            subst hi
            refine ⟨le_refl _, ?_⟩
            simp only [Nat.sub_self]
            have : mo = none := by
              cases mo
              · rfl
              · simp at hmo
            rw [this]
            rfl
          · left
            simpa [hmo, hc] using h'
      · right
        refine ⟨by omega, ?_⟩
        have : i - currIdx = (i - (currIdx + 1)) + 1 := by omega
        rw [this]
        simpa using h2

/-- One greedy iteration either leaves `matched` unchanged or fills one
previously unmatched slot with `prevIdx`. -/
theorem greedyStep_cases (cost : ℕ → ℕ → WithTop ℝ)
    (matched : List (Option ℕ)) (prevIdx : ℕ) :
    greedyStep cost matched prevIdx = matched ∨
    ∃ i, matched.get? i = some none ∧
      greedyStep cost matched prevIdx = matched.set i (some prevIdx) := by
  unfold greedyStep
  rcases hb : (bestCandidateAux cost prevIdx matched 0 (none, ⊤)).1 with _ | i
  · left
    simp [hb]
  · rcases bestCandidateAux_spec cost prevIdx matched 0 (none, ⊤) i hb with h | ⟨_, h2⟩
    · simp at h
    · simp only [hb]
      split
      · right
        exact ⟨i, by simpa using h2, rfl⟩
      · left
        rfl

/-- The greedy pass returns one entry per current pose. -/
theorem greedyMatch_length (cost : ℕ → ℕ → WithTop ℝ) (m k : ℕ) :
    (greedyMatch cost m k).length = m := by
  induction k with
  | zero => simp [greedyMatch]
  | succ k ih =>
      unfold greedyMatch at ih ⊢
      rw [List.range_succ, List.foldl_append]
      simp only [List.foldl_cons, List.foldl_nil]
      rcases greedyStep_cases cost ((List.range k).foldl (greedyStep cost)
          (List.replicate m none)) k with h | ⟨i, _, h⟩ <;>
        rw [h] <;> simp [ih]

/-- The matched previous indices are distinct and below `k`. -/
theorem greedyMatch_values (cost : ℕ → ℕ → WithTop ℝ) (m k : ℕ) :
    ((greedyMatch cost m k).filterMap id).Nodup ∧
    ∀ j, some j ∈ greedyMatch cost m k → j < k := by
  induction k with
  | zero =>
      constructor
      · simp [greedyMatch]
      · intro j hj
        simp only [greedyMatch, List.range_zero, List.foldl_nil] at hj
        exact absurd (List.eq_of_mem_replicate hj) (by simp)
  | succ k ih =>
      have hstep : greedyMatch cost m (k + 1)
          = greedyStep cost (greedyMatch cost m k) k := by
        unfold greedyMatch
        rw [List.range_succ, List.foldl_append]
        simp
      rcases greedyStep_cases cost (greedyMatch cost m k) k with h | ⟨i, hi, h⟩
      · rw [hstep, h]
        exact ⟨ih.1, fun j hj => lt_trans (ih.2 j hj) (by omega)⟩
      · rw [hstep, h]
        have hknotin : some k ∉ greedyMatch cost m k := fun hmem =>
          absurd (ih.2 k hmem) (lt_irrefl k)
        constructor
        · have hperm := filterMap_set_none_perm (greedyMatch cost m k) i k hi
          rw [hperm.nodup_iff]
          refine List.nodup_cons.mpr ⟨fun hmem => ?_, ih.1⟩
          obtain ⟨a, ha, hid⟩ := List.mem_filterMap.mp hmem
          cases a with
          | none => simp at hid
          | some v =>
              have hv : v = k := by simpa using hid
              subst hv
              exact hknotin ha
        · intro j hj
          rcases List.mem_or_eq_of_mem_set hj with h' | h'
          · exact lt_trans (ih.2 j h') (by omega)
          · rw [Option.some_inj.mp h']
            omega

/-! ## Claim C10 -/

/-- C10: `matchPosesToPreviousFrame` returns a permutation of its
`currentPoses` argument — for every pair of current and previous pose lists
each current skeleton appears exactly once in the result, nothing else
appears, and the length equals the number of current skeletons: identity
matching never drops or duplicates a detection. -/
theorem C10_matchPoses_perm (currentPoses previousPoses : List Pose) :
    (matchPosesToPreviousFrame currentPoses previousPoses).Perm
      currentPoses ∧
    (matchPosesToPreviousFrame currentPoses previousPoses).length
      = currentPoses.length := by
  have hperm : (matchPosesToPreviousFrame currentPoses previousPoses).Perm
      currentPoses := by
    unfold matchPosesToPreviousFrame
    split
    · exact List.Perm.refl _
    · split
      · exact List.Perm.refl _
      · show (List.filterMap id (fillUnmatched currentPoses
            (greedyMatch (costOf currentPoses previousPoses)
              currentPoses.length previousPoses.length)
            (placeMatched currentPoses
              (greedyMatch (costOf currentPoses previousPoses)
                currentPoses.length previousPoses.length)
              (List.replicate
                (max currentPoses.length previousPoses.length) none))
            0)).Perm currentPoses
        set m := currentPoses.length with hm
        set k := previousPoses.length with hk
        set cost := costOf currentPoses previousPoses with hcost
        set matched := greedyMatch cost m k with hmatched
        have hml : matched.length = m := greedyMatch_length cost m k
        obtain ⟨hnd, hbound⟩ := greedyMatch_values cost m k
        set size := max m k with hsize
        set reordered0 : List (Option Pose) := List.replicate size none
          with hr0
        have hempty0 : ∀ j, some j ∈ matched →
            reordered0.get? j = some none := by
          intro j hj
          exact get?_replicate_none size j
            (lt_of_lt_of_le (hbound j hj) (le_max_right m k))
        have hplace := placeMatched_perm currentPoses matched reordered0
          hnd hempty0
        have hfm0 : reordered0.filterMap id = [] := by
          rw [List.filterMap_eq_nil]
          intro a ha
          rw [List.eq_of_mem_replicate ha]
          rfl
        set reordered1 := placeMatched currentPoses matched reordered0
          with hr1
        have hlen1 : reordered1.length = size := by
          rw [hr1, placeMatched_length]
          simp [hr0]
        have hps : (reordered1.filterMap id).length
            = (pairedSome currentPoses matched).length := by
          have := hplace.length_eq
          simpa [hfm0] using this
        have hpspn := paired_length currentPoses matched (by omega)
        have hcount1 : reordered1.countP (·.isSome)
            + (pairedNone currentPoses matched).length
            ≤ reordered1.length := by
          rw [← length_filterMap_id, hps, hlen1]
          omega
        have hfill := fillUnmatched_perm currentPoses matched reordered1 0
          (by omega) hcount1 (fun i hi => absurd hi (Nat.not_lt_zero i))
        have hchain : (List.filterMap id
            (fillUnmatched currentPoses matched reordered1 0)).Perm
            (pairedNone currentPoses matched
              ++ pairedSome currentPoses matched) := by
          refine hfill.trans (List.Perm.append_left _ ?_)
          simpa [hfm0] using hplace
        exact (hchain.trans List.perm_append_comm).trans
          (cur_perm_paired currentPoses matched (by omega)).symm
  exact ⟨hperm, hperm.length_eq⟩

/-! ## Claim C8 -/

/-- Empty poses share no confident anchor: similarity is `Infinity`. -/
theorem calcSim_empty (q : Pose) :
    calculatePoseSimilarity emptyPose q = ⊤ := by
  simp [calculatePoseSimilarity, comparedDistSqs, keyPointNames, findKp,
    emptyPose]

/-- All costs between the counterexample frames are `Infinity`. -/
theorem costOf_empty (i j : ℕ) :
    costOf [emptyPose] [emptyPose, emptyPose] i j = ⊤ := by
  have h1 : ([emptyPose].getD i ⟨[]⟩) = emptyPose := by
    cases i with
    | zero => rfl
    | succ n => cases n <;> rfl
  unfold costOf
  rw [h1]
  exact calcSim_empty _

/-- With all costs `Infinity` nothing is ever matched. -/
theorem greedyStep_empty (j : ℕ) :
    greedyStep (costOf [emptyPose] [emptyPose, emptyPose]) [none] j
      = [none] := by
  simp [greedyStep, bestCandidateAux, costOf_empty]

/-- C8 counterexample: the claim says every unmatched current skeleton is
appended after all previous slots, at an output index `≥` the number of
previous slots.  With two previous slots and one current skeleton sharing
no confident anchor with either, the current skeleton is unmatched, yet the
output is `[emptyPose]` — the unmatched skeleton sits at index `0`, and the
output is even shorter than the number of previous slots, so no index `≥ 2`
exists: `reordered` fills unmatched poses into the lowest empty slots
(`nextSlot` starts at 0, line 1112), not past the previous slots. -/
theorem C8_counterexample :
    matchPosesToPreviousFrame [emptyPose] [emptyPose, emptyPose]
      = [emptyPose] ∧
    (matchPosesToPreviousFrame [emptyPose] [emptyPose, emptyPose]).length
      < [emptyPose, emptyPose].length := by
  have hgm : greedyMatch (costOf [emptyPose] [emptyPose, emptyPose]) 1 2
      = [none] := by
    simp [greedyMatch, List.range_succ, greedyStep_empty]
  have hmatch : matchPosesToPreviousFrame [emptyPose] [emptyPose, emptyPose]
      = [emptyPose] := by
    show (List.filterMap id (fillUnmatched [emptyPose]
        (greedyMatch (costOf [emptyPose] [emptyPose, emptyPose]) 1 2)
        (placeMatched [emptyPose]
          (greedyMatch (costOf [emptyPose] [emptyPose, emptyPose]) 1 2)
          (List.replicate 2 none)) 0)) = [emptyPose]
    rw [hgm]
    show (List.filterMap id (fillUnmatched [emptyPose] [none]
        [none, none] 0)) = [emptyPose]
    have hfe : firstEmptyFrom [none, none] 0 = 0 := by
      unfold firstEmptyFrom
      simp
    simp [fillUnmatched, hfe]
  exact ⟨hmatch, by rw [hmatch]; simp⟩

/-- C8 (amended): each unmatched current skeleton is placed into the
lowest-indexed empty output slot at its turn, in the order found, so it can
land below the number of previous slots when some previous slot went
unmatched; when every previous slot receives a match, the unmatched current
skeletons are appended after all previous slots: the output past the first
`previousPoses.length` entries is exactly the unmatched current skeletons
in the order they were found. -/
theorem C8_unmatched_appended :
    ∀ (currentPoses previousPoses : List Pose),
      previousPoses.length ≠ 0 → currentPoses.length ≠ 0 →
      (∀ j, j < previousPoses.length →
        some j ∈ greedyMatch (costOf currentPoses previousPoses)
          currentPoses.length previousPoses.length) →
      (matchPosesToPreviousFrame currentPoses previousPoses).drop
          previousPoses.length
        = pairedNone currentPoses
            (greedyMatch (costOf currentPoses previousPoses)
              currentPoses.length previousPoses.length) := by
  intro cur prev hk0 hm0 hall
  set m := cur.length with hm
  set k := prev.length with hk
  set cost := costOf cur prev with hcost
  set matched := greedyMatch cost m k with hmatched
  have hml : matched.length = m := greedyMatch_length cost m k
  obtain ⟨hnd, hbound⟩ := greedyMatch_values cost m k
  have hsub : List.range k ⊆ matched.filterMap id := by
    intro j hj
    rw [List.mem_range] at hj
    exact List.mem_filterMap.mpr ⟨some j, hall j hj, rfl⟩
  have hsub2 : matched.filterMap id ⊆ List.range k := by
    intro j hj
    obtain ⟨a, ha, hid⟩ := List.mem_filterMap.mp hj
    rw [List.mem_range]
    cases a with
    | none => simp at hid
    | some v =>
        have : v = j := by simpa using hid
        subst this
        exact hbound v ha
  have hvk : (matched.filterMap id).length = k := by
    have h1 : k ≤ (matched.filterMap id).length := by
      simpa using ((List.nodup_range k).subperm hsub).length_le
    have h2 : (matched.filterMap id).length ≤ k := by
      simpa using (hnd.subperm hsub2).length_le
    omega
  have hkm : k ≤ m := by
    have h1 : (matched.filterMap id).length ≤ matched.length := by
      rw [length_filterMap_id]
      exact List.countP_le_length _
    omega
  have hsize : max m k = m := max_eq_left hkm
  set reordered0 : List (Option Pose) := List.replicate m none with hr0
  set reordered1 := placeMatched cur matched reordered0 with hr1
  have hlen1 : reordered1.length = m := by
    rw [hr1, placeMatched_length]
    simp [hr0]
  have hmid : ∀ i, 0 ≤ i → i < k →
      ∃ q, reordered1.get? i = some (some q) := by
    intro i _ hik
    exact placeMatched_get?_isSome cur matched reordered0 i
      (hall i hik) (by omega) (by simp [hr0]; omega)
  have htail : ∀ i, k ≤ i → i < reordered1.length →
      reordered1.get? i = some none := by
    intro i hik hilen
    have hnotmem : some i ∉ matched := fun hmem =>
      absurd (hbound i hmem) (by omega)
    rw [hr1, placeMatched_get?_not_mem cur matched reordered0 i hnotmem]
    exact get?_replicate_none m i (by rw [hlen1] at hilen; omega)
  have hpsl : (pairedSome cur matched).length = k := by
    rw [pairedSome_length cur matched (by omega), ← length_filterMap_id,
      hvk]
  have hroom : k + (pairedNone cur matched).length ≤ reordered1.length := by
    have := paired_length cur matched (by omega)
    rw [hlen1]
    omega
  have hfill := fillUnmatched_append cur matched reordered1 0 k (by omega)
    (by omega) htail hmid hroom
  have hempty0 : ∀ j, some j ∈ matched → reordered0.get? j = some none :=
    fun j hj => get?_replicate_none m j (lt_of_lt_of_le (hbound j hj) hkm)
  have hfm1 : (reordered1.filterMap id).length = k := by
    have hplace := placeMatched_perm cur matched reordered0 hnd hempty0
    have hfm0 : reordered0.filterMap id = [] := by
      rw [List.filterMap_eq_nil]
      intro a ha
      rw [List.eq_of_mem_replicate ha]
      rfl
    have := hplace.length_eq
    rw [hfm0] at this
    simpa [hpsl] using this
  have hbody : matchPosesToPreviousFrame cur prev
      = (fillUnmatched cur matched reordered1 0).filterMap id := by
    show (if prev.length = 0 then cur else if cur.length = 0 then cur else
      (fillUnmatched cur (greedyMatch (costOf cur prev) cur.length
          prev.length)
        (placeMatched cur (greedyMatch (costOf cur prev) cur.length
            prev.length)
          (List.replicate (max cur.length prev.length) none)) 0).filterMap
        id) = _
    rw [if_neg hk0, if_neg hm0]
    rw [show max cur.length prev.length = m from hsize]
  rw [hbody, hfill, ← hfm1]
  exact List.drop_left _ _

/-- A pose matches itself at distance (and so score) zero. -/
theorem calcSim_posA : calculatePoseSimilarity posA posA
    = (((0 : ℝ)) : WithTop ℝ) := by
  have hcd : comparedDistSqs posA posA = [0] := by
    simp only [comparedDistSqs, keyPointNames, findKp, posA,
      List.filterMap_cons, List.filterMap_nil, List.find?, List.find?_cons,
      List.find?_nil, beq_iff_eq, String.reduceEq, String.reduceBEq,
      reduceIte]
    norm_num [distSq]
  simp [calculatePoseSimilarity, hcd]

/-- The greedy pass on frames `[posA, emptyPose]` / `[posA]` matches the
single previous slot to current index 0 (cost `0 < 200`) and leaves the
empty pose unmatched. -/
theorem greedyMatch_witness_eval :
    greedyMatch (costOf [posA, emptyPose] [posA]) 2 1 = [some 0, none] := by
  have hc00 : costOf [posA, emptyPose] [posA] 0 0
      = (((0 : ℝ)) : WithTop ℝ) := by
    unfold costOf
    exact calcSim_posA
  have hc10 : costOf [posA, emptyPose] [posA] 1 0 = ⊤ := by
    unfold costOf
    exact calcSim_empty _
  have hstep : greedyStep (costOf [posA, emptyPose] [posA]) [none, none] 0
      = [some 0, none] := by
    simp [greedyStep, bestCandidateAux, hc00, hc10]
  simp [greedyMatch, List.range_succ, hstep]

/-- Witness for `C8_unmatched_appended`: with previous frame `[posA]` and
current frame `[posA, emptyPose]`, the previous slot is matched (to the
identical `posA`, score 0) and the unmatched `emptyPose` is appended right
after it. -/
theorem C8_witness :
    (matchPosesToPreviousFrame [posA, emptyPose] [posA]).drop 1
      = [emptyPose] := by
  have h := C8_unmatched_appended [posA, emptyPose] [posA] (by simp)
    (by simp)
    (by
      intro j hj
      have hj0 : j = 0 := by
        simpa using hj
      subst hj0
      show some 0 ∈ greedyMatch (costOf [posA, emptyPose] [posA]) 2 1
      rw [greedyMatch_witness_eval]
      simp)
  have h2 : (matchPosesToPreviousFrame [posA, emptyPose] [posA]).drop 1
      = pairedNone [posA, emptyPose]
        (greedyMatch (costOf [posA, emptyPose] [posA]) 2 1) := h
  rw [h2, greedyMatch_witness_eval]
  rfl

end BetweenVerses
